import Mathlib

/-!
# Verification of the xml-rpc value codec

A shallow embedding of the XML-RPC client codec (value model, fault
conversion, response/value parser, value writer, datetime formatter)
together with theorems settling the specification claims.

The embedding follows the Rust sources:
* `src/value.rs`   — `Value`, accessors, `Index`, `write_as_xml`
* `src/error.rs`   — `ParseError` (the variant shape used by the parser)
  and `Fault` with `from_value` / `to_value`
* `src/parser.rs`  — `Parser` (a cursor over the XML event stream) and its
  recursive-descent grammar `parse_response` / `parse_value`
* `src/utils.rs`   — `escape_xml` and `format_datetime`

External crates used by the code (`xml-rs` event reader, `base64`,
`iso8601`) are not part of the repository; where their behaviour matters
they are modelled explicitly, each with a doc comment saying so.

Machine integers (`i32`, `i64`) are modelled as `Int`; the code performs
no arithmetic on them, only range-checked parsing, so no overflow
semantics are needed.  Byte/line positions carried inside parse errors
are diagnostic-only and are omitted from the error model; no claim
depends on them.  `f64` payloads are modelled by the accepted source
text, since no claim depends on floating-point semantics.
-/

namespace XmlRpc


/-! ## The XML event layer

`xml-rs` delivers the document as a stream of `XmlEvent`s.  The parser in
`src/parser.rs` consumes exactly this stream, so the embedding's parser
operates on a `List XmlEvent`.  A qualified tag name carries an optional
namespace and prefix (rejected by the parser) and a local name; the
attribute list is represented by its length, the only thing the parser
inspects (`attributes.is_empty()`).
-/

/-- Qualified XML name, after `xml-rs`'s `OwnedName`: optional namespace,
optional prefix (`pfx`, named `prefix` in the source, which is a reserved
word here) and a local name. -/
structure XmlName where
  ns : Option String
  pfx : Option String
  local_name : String
deriving DecidableEq, Repr

/-- Display form of an `OwnedName` as used in error messages. -/
def XmlName.display (n : XmlName) : String :=
  match n.pfx with
  | some p => p ++ ":" ++ n.local_name
  | none => n.local_name

/-- The `xml-rs` `XmlEvent` variants the parser distinguishes.  With the
`cdata_to_characters` config used by `Parser::new`, the reader never
emits `CData`, but the constructor is kept because the code matches on
it. -/
inductive XmlEvent where
  | startDocument
  | processingInstruction
  | comment (text : String)
  | whitespace (text : String)
  | startElement (name : XmlName) (attrs : Nat)
  | endElement (name : XmlName)
  | characters (data : String)
  | cdata (data : String)
  | endDocument
deriving DecidableEq, Repr

/-! ## The value model (`src/value.rs`) and datetime types (`iso8601` crate) -/

/-- The `iso8601` crate's `Date`: Gregorian year/month/day, week date, or
ordinal date. -/
inductive Iso8601Date where
  | ymd (year : Int) (month : Nat) (day : Nat)
  | week (year : Int) (ww : Nat) (d : Nat)
  | ordinal (year : Int) (ddd : Nat)
deriving DecidableEq, Repr

/-- The `iso8601` crate's `Time`. -/
structure Iso8601Time where
  hour : Nat
  minute : Nat
  second : Nat
  millisecond : Nat
  tz_offset_hours : Int
  tz_offset_minutes : Int
deriving DecidableEq, Repr

/-- The `iso8601` crate's `DateTime`. -/
structure Iso8601DateTime where
  date : Iso8601Date
  time : Iso8601Time
deriving DecidableEq, Repr

/-- The `Value` from `src/value.rs`.  `Struct` carries a `BTreeMap<String, Value>`,
modelled as an association list kept sorted by key (the map operations
below preserve this).  The `f64` payload of `Double` is modelled by the
source text accepted by `str::parse::<f64>`; no claim depends on float
arithmetic. -/
inductive Value where
  | int (i : Int)
  | int64 (i : Int)
  | bool (b : Bool)
  | str (s : String)
  | double (raw : String)
  | dateTime (dt : Iso8601DateTime)
  | base64 (data : List Nat)
  | struct (map : List (String × Value))
  | array (elements : List Value)
  | nil
deriving Repr

/-- Lexicographic string order by Unicode scalar value, which coincides
with Rust's `Ord for String` (byte-wise UTF-8 comparison); used for the
`BTreeMap` model. -/
def strLtB (a b : String) : Bool :=
  go a.data b.data
where
  go : List Char → List Char → Bool
    | [], [] => false
    | [], _ :: _ => true
    | _ :: _, [] => false
    | c :: s, d :: t => c.toNat < d.toNat || (c.toNat = d.toNat && go s t)

/-- The `BTreeMap::len`. -/
def blen (m : List (String × Value)) : Nat := m.length

/-- The `BTreeMap::get`: lookup by key. -/
def bget : List (String × Value) → String → Option Value
  | [], _ => none
  | (k, v) :: t, key => if key = k then some v else bget t key

/-- The `BTreeMap::insert` on a key-sorted association list: replaces the
entry when the key is present (last write wins), otherwise inserts at the
sorted position. -/
def binsert (key : String) (v : Value) : List (String × Value) → List (String × Value)
  | [] => [(key, v)]
  | (k, w) :: t =>
    if key = k then (key, v) :: t
    else if strLtB key k then (key, v) :: (k, w) :: t
    else (k, w) :: binsert key v t

/-! ## `Fault` (`src/error.rs`) -/

/-- The `Fault`: application-level error record, fields `fault_code: i32`
and `fault_string: String`. -/
structure Fault where
  fault_code : Int
  fault_string : String
deriving DecidableEq, Repr

/-- The `Fault::from_value`: accepts exactly a two-member struct with
`faultCode: Int` and `faultString: String`; anything else is `None`. -/
def Fault.from_value : Value → Option Fault
  | .struct map =>
    if blen map ≠ 2 then none
    else
      match bget map "faultCode", bget map "faultString" with
      | some (.int fault_code), some (.str fault_string) =>
        some ⟨fault_code, fault_string⟩
      | _, _ => none
  | _ => none

/-- The `Fault::to_value`: builds the two-member struct, inserting
`faultCode` then `faultString` into an empty map. -/
def Fault.to_value (f : Fault) : Value :=
  .struct (binsert "faultString" (.str f.fault_string)
    (binsert "faultCode" (.int f.fault_code) []))

/-! ## `Value` accessors and indexing (`src/value.rs`) -/

/-- The `Index for str`/`String` implementation's `get`: a struct member
lookup, `None` on any other variant. -/
def Value.getKey : Value → String → Option Value
  | .struct map, key => bget map key
  | _, _ => none

/-- The `Index for usize` implementation's `get`: a bounds-checked array
element lookup (`slice::get`), `None` on any other variant. -/
def Value.getIdx : Value → Nat → Option Value
  | .array elements, i => elements[i]?
  | _, _ => none

/-- The `ops::Index` with a string key: `index.get(self).unwrap_or(&Value::Nil)`. -/
def Value.indexKey (v : Value) (key : String) : Value :=
  (v.getKey key).getD .nil

/-- The `ops::Index` with a `usize` position: `index.get(self).unwrap_or(&Value::Nil)`. -/
def Value.indexIdx (v : Value) (i : Nat) : Value :=
  (v.getIdx i).getD .nil

/-! ## Text-level parsing primitives

These model the library functions the parser delegates to:
`str::parse::<i32>` / `::<i64>`, `str::parse::<f64>` (recognizer only),
the `base64` crate's decoder with whitespace stripping, and the
`iso8601` crate's `datetime` recognizer.
-/

/-- A decimal digit run evaluated to a number; `none` when empty or when
a non-ASCII-digit occurs. -/
def digitsToNat : List Char → Option Nat
  | [] => none
  | cs =>
    if cs.all Char.isDigit then
      some (cs.foldl (fun a c => a * 10 + (c.toNat - 48)) 0)
    else none

/-- The `str::parse` for signed integers: optional leading `+`/`-`, then one
or more ASCII digits, with a range check against the given bit width. -/
def parseSigned (bits : Nat) (s : String) : Option Int :=
  let (sign, digits) : Int × List Char :=
    match s.data with
    | '+' :: t => (1, t)
    | '-' :: t => (-1, t)
    | t => (1, t)
  match digitsToNat digits with
  | none => none
  | some n =>
    let v : Int := sign * n
    if -(2 ^ (bits - 1)) ≤ v ∧ v < 2 ^ (bits - 1) then some v else none

/-- The `str::parse::<i32>`. -/
def parse_i32 (s : String) : Option Int := parseSigned 32 s

/-- The `str::parse::<i64>`. -/
def parse_i64 (s : String) : Option Int := parseSigned 64 s

/-- Recognizer for `str::parse::<f64>` (the Rust grammar: optional sign,
then `inf`, `infinity`, `nan` (case-insensitive) or a decimal significand
with optional exponent).  Models acceptance only; no claim depends on the
numeric value, so `Value.double` stores the accepted text. -/
def f64_accepts (s : String) : Bool :=
  let lower := s.data.map Char.toLower
  let afterSign :=
    match lower with
    | '+' :: t => t
    | '-' :: t => t
    | t => t
  if afterSign = ['i', 'n', 'f'] then true
  else if afterSign = ['i', 'n', 'f', 'i', 'n', 'i', 't', 'y'] then true
  else if afterSign = ['n', 'a', 'n'] then true
  else
    let (mantissa, expPart) := afterSign.span (fun c => c ≠ 'e')
    let mantissaOk : Bool :=
      let (intPart, rest) := mantissa.span Char.isDigit
      match rest with
      | [] => !intPart.isEmpty
      | '.' :: frac => (!intPart.isEmpty || !frac.isEmpty) && frac.all Char.isDigit
      | _ => false
    let expOk : Bool :=
      match expPart with
      | [] => true
      | 'e' :: t =>
        let t' := match t with
          | '+' :: u => u
          | '-' :: u => u
          | u => u
        !t'.isEmpty && t'.all Char.isDigit
      | _ => false
    mantissaOk && expOk

/-- Is this one of the four XML whitespace characters (space, tab, CR, LF)? -/
def isXmlWs (c : Char) : Bool :=
  c = ' ' ∨ c = '\t' ∨ c = '\r' ∨ c = '\n'

/-- Value of a standard-alphabet base64 character. -/
def b64Val (c : Char) : Option Nat :=
  if 'A' ≤ c ∧ c ≤ 'Z' then some (c.toNat - 65)
  else if 'a' ≤ c ∧ c ≤ 'z' then some (c.toNat - 97 + 26)
  else if '0' ≤ c ∧ c ≤ '9' then some (c.toNat - 48 + 52)
  else if c = '+' then some 62
  else if c = '/' then some 63
  else none

/-- Decode a (whitespace-free, padding-free) run of base64 characters in
groups of four; a final group of two or three characters yields one or
two bytes, a final group of one character is invalid. -/
def b64Groups : List Char → Option (List Nat)
  | [] => some []
  | [_] => none
  | [a, b] => do
    let va ← b64Val a
    let vb ← b64Val b
    pure [va * 4 + vb / 16]
  | [a, b, c] => do
    let va ← b64Val a
    let vb ← b64Val b
    let vc ← b64Val c
    pure [va * 4 + vb / 16, (vb % 16) * 16 + vc / 4]
  | a :: b :: c :: d :: rest => do
    let va ← b64Val a
    let vb ← b64Val b
    let vc ← b64Val c
    let vd ← b64Val d
    let tail ← b64Groups rest
    pure ([va * 4 + vb / 16, (vb % 16) * 16 + vc / 4, (vc % 4) * 64 + vd] ++ tail)

/-- The `base64` crate's `decode_config` with the configuration built in
`parse_value_inner`: standard character set, padding accepted, whitespace
accepted and removed.  Models the external crate; padding (`=`) may only
occur at the end. -/
def base64_decode (s : String) : Option (List Nat) :=
  let cs := s.data.filter (fun c => ¬ isXmlWs c)
  let body :=
    match cs.reverse with
    | '=' :: '=' :: t => t.reverse
    | '=' :: t => t.reverse
    | _ => cs
  if body.any (fun c => c = '=') then none else b64Groups body

/-- Modelled from the spec: the external `iso8601` crate's `datetime`
recognizer (the crate is not part of this repository).  The spec
describes it as "a permissive ISO-8601 subset (complete or partial date,
optional time, optional fractional seconds, optional zone offset)".
This model accepts `YYYY-MM-DD` or `YYYYMMDD` dates followed by `T` and
an `HH:MM:SS` time with optional `.fff` fraction and optional
`Z`/`±HH`/`±HH:MM` zone.  No claim depends on its internal details; it
only has to be a total recognizer producing the structured value. -/
def iso8601_datetime (s : String) : Option Iso8601DateTime := do
  let (dateCs, rest) := s.data.span (fun c => c ≠ 'T')
  let timeCs ← match rest with
    | 'T' :: t => some t
    | _ => none
  let date ← parseDate dateCs
  let time ← parseTime timeCs
  pure ⟨date, time⟩
where
  parseDate (cs : List Char) : Option Iso8601Date :=
    match cs with
    | [y1, y2, y3, y4, '-', m1, m2, '-', d1, d2] => do
      let y ← digitsToNat [y1, y2, y3, y4]
      let m ← digitsToNat [m1, m2]
      let d ← digitsToNat [d1, d2]
      pure (.ymd y m d)
    | [y1, y2, y3, y4, m1, m2, d1, d2] => do
      let y ← digitsToNat [y1, y2, y3, y4]
      let m ← digitsToNat [m1, m2]
      let d ← digitsToNat [d1, d2]
      pure (.ymd y m d)
    | _ => none
  parseZone (cs : List Char) : Option (Int × Int) :=
    match cs with
    | [] => some (0, 0)
    | ['Z'] => some (0, 0)
    | [sg, h1, h2] => do
      let h ← digitsToNat [h1, h2]
      if sg = '+' then pure (h, 0)
      else if sg = '-' then pure (-(h : Int), 0)
      else none
    | [sg, h1, h2, ':', m1, m2] => do
      let h ← digitsToNat [h1, h2]
      let m ← digitsToNat [m1, m2]
      if sg = '+' then pure (h, m)
      else if sg = '-' then pure (-(h : Int), -(m : Int))
      else none
    | [sg, h1, h2, m1, m2] => do
      let h ← digitsToNat [h1, h2]
      let m ← digitsToNat [m1, m2]
      if sg = '+' then pure (h, m)
      else if sg = '-' then pure (-(h : Int), -(m : Int))
      else none
    | _ => none
  parseTime (cs : List Char) : Option Iso8601Time :=
    match cs with
    | h1 :: h2 :: ':' :: m1 :: m2 :: ':' :: s1 :: s2 :: rest => do
      let h ← digitsToNat [h1, h2]
      let m ← digitsToNat [m1, m2]
      let sec ← digitsToNat [s1, s2]
      let (ms, zoneCs) ← match rest with
        | '.' :: t =>
          let (fracCs, zs) := t.span Char.isDigit
          match digitsToNat (fracCs.take 3) with
          | some f => some (f, zs)
          | none => none
        | t => some (0, t)
      let (zh, zm) ← parseZone zoneCs
      pure ⟨h, m, sec, ms, zh, zm⟩
    | _ => none

/-! ## Parse errors (`src/error.rs`, the enum shape used by `src/parser.rs`)

The byte/line-column position carried by the Rust variants is
diagnostic-only and omitted here; no claim depends on it.  `xmlError`
stands for `ParseError::XmlError`, reached via the `From<io::Error>` /
`From<xml::reader::Error>` conversions.  `outOfFuel` is an artifact of
the embedding: the Rust recursion is modelled with a fuel parameter, and
the totality theorem (claim C9) shows the fuel supplied by the entry
points is never exhausted, i.e. this constructor is unreachable from
them. -/
inductive ParseError where
  | unexpectedXml (expected : String) (found : Option String)
  | invalidValue (for_type : String) (found : String)
  | xmlError (msg : String)
  | outOfFuel
deriving DecidableEq, Repr

/-- The `Response = Result<Value, Fault>`: `.ok` is the single-param result,
`.error` the server-reported fault. -/
abbrev Response := Except Fault Value

/-- The parser state: the current token `cur` and the not-yet-pulled
remainder of the event stream.  (`Parser` holds `cur: XmlEvent` and the
`EventReader`.) -/
structure PState where
  cur : XmlEvent
  rest : List XmlEvent
deriving DecidableEq, Repr

/-- The `found:` description of the current token used by
`Parser::expected`. -/
def foundOf : XmlEvent → Option String
  | .startElement n _ => some ("<" ++ n.display ++ ">")
  | .endElement n => some ("</" ++ n.display ++ ">")
  | .endDocument => some "end of data"
  | .characters d => some ("\"" ++ d ++ "\"")
  | .cdata d => some ("\"" ++ d ++ "\"")
  | _ => none

/-- The `Parser::expected`: an `UnexpectedXml` error built from the expected
description and the current token. -/
def expectedErr (s : PState) (expected : String) : ParseError :=
  .unexpectedXml expected (foundOf s.cur)

/-- The loop body of `Parser::next`: pull events, skipping
`StartDocument`, `Comment`, `Whitespace` and `ProcessingInstruction`;
reject namespaced/prefixed tags and start-tags with attributes (the
error is built from the *previous* current token, as in the source);
at the end of the stream the reader yields `EndDocument` forever. -/
def nextAux (s : PState) : List XmlEvent → Except ParseError PState
  | [] => .ok ⟨.endDocument, []⟩
  | e :: rest =>
    match e with
    | .startDocument | .comment _ | .whitespace _ | .processingInstruction =>
      nextAux s rest
    | .startElement n attrs =>
      if n.ns.isSome ∨ n.pfx.isSome then
        .error (expectedErr s "tag without namespace or prefix")
      else if attrs ≠ 0 then
        .error (expectedErr s ("tag <" ++ n.display ++ "> without attributes"))
      else .ok ⟨e, rest⟩
    | .endElement n =>
      if n.ns.isSome ∨ n.pfx.isSome then
        .error (expectedErr s "tag without namespace or prefix")
      else .ok ⟨e, rest⟩
    | _ => .ok ⟨e, rest⟩

/-- The `Parser::next`. -/
def Parser.next (s : PState) : Except ParseError PState :=
  nextAux s s.rest

/-- The `Parser::expect_open`: the current token must be `<tag>`; advances. -/
def expect_open (tag : String) (s : PState) : Except ParseError PState :=
  match s.cur with
  | .startElement n _ =>
    if n.local_name = tag then Parser.next s
    else .error (expectedErr s ("<" ++ tag ++ ">"))
  | _ => .error (expectedErr s ("<" ++ tag ++ ">"))

/-- The `Parser::expect_close`: the current token must be `</tag>`; advances.
On failure the state is left unchanged (the source only reads `self.cur`). -/
def expect_close (tag : String) (s : PState) : Except ParseError PState :=
  match s.cur with
  | .endElement n =>
    if n.local_name = tag then Parser.next s
    else .error (expectedErr s ("</" ++ tag ++ ">"))
  | _ => .error (expectedErr s ("</" ++ tag ++ ">"))

/-- The `Parser::expect_value`: the current token must be character data;
feed it to the type-specific parse function, reporting failures as
`InvalidValue`; advances on success. -/
def expect_value (for_type : String) (p : String → Option Value) (s : PState) :
    Except ParseError (Value × PState) :=
  match s.cur with
  | .characters data =>
    match p data with
    | some v => (Parser.next s).map (fun s' => (v, s'))
    | none => .error (.invalidValue for_type data)
  | _ => .error (expectedErr s "characters")

/-! ## The recursive-descent grammar (`src/parser.rs`)

The Rust recursion (`parse_value` ↔ `parse_value_inner` plus the
`<struct>`/`<data>` loops) is modelled with a fuel parameter: each of the
mutually recursive functions checks the fuel on entry and passes the
predecessor to its recursive calls.  The entry points supply
`stream length + 1` fuel, which claim C9 proves sufficient (every
recursive call strictly consumes input), so the `outOfFuel` error is
unreachable from them. -/

mutual

/-- The `Parser::parse_value`: `<value>`, then either an immediate `</value>`
(empty string) or an inner value followed by `</value>`. -/
def parse_value (fuel : Nat) (s : PState) : Except ParseError (Value × PState) :=
  match fuel with
  | 0 => .error .outOfFuel
  | fuel + 1 => do
    let s ← expect_open "value" s
    match expect_close "value" s with
    | .ok s' => .ok (.str "", s')
    | .error _ => do
      let (v, s) ← parse_value_inner fuel s
      let s ← expect_close "value" s
      .ok (v, s)

/-- The `Parser::parse_value_inner`: dispatch on the first child token — a
recognized type tag, raw character data (implicit string), or an error. -/
def parse_value_inner (fuel : Nat) (s : PState) : Except ParseError (Value × PState) :=
  match fuel with
  | 0 => .error .outOfFuel
  | fuel + 1 =>
    match s.cur with
    | .startElement n _ =>
      let name := n.local_name
      if name = "struct" then do
        let s ← Parser.next s
        parse_struct_body fuel s []
      else if name = "array" then do
        let s ← Parser.next s
        let s ← expect_open "data" s
        let (elements, s) ← parse_array_body fuel s []
        let s ← expect_close "array" s
        .ok (.array elements, s)
      else if name = "nil" then do
        let s ← Parser.next s
        let s ← expect_close "nil" s
        .ok (.nil, s)
      else if name = "string" then do
        let s ← Parser.next s
        match s.cur with
        | .characters data => do
          let s ← Parser.next s
          let s ← expect_close "string" s
          .ok (.str data, s)
        | .endElement n2 =>
          if n2.local_name = "string" then do
            let s ← Parser.next s
            .ok (.str "", s)
          else .error (expectedErr s "characters or </string>")
        | _ => .error (expectedErr s "characters or </string>")
      else if name = "base64" then do
        let s ← Parser.next s
        match s.cur with
        | .characters data => do
          let s1 ← Parser.next s
          let s2 ← expect_close "base64" s1
          match base64_decode data with
          | some bytes => .ok (.base64 bytes, s2)
          | none => .error (.invalidValue "base64" data)
        | .endElement n2 =>
          if n2.local_name = "base64" then do
            let s ← Parser.next s
            .ok (.base64 [], s)
          else .error (expectedErr s "characters or </base64>")
        | _ => .error (expectedErr s "characters or </base64>")
      else if name = "i4" ∨ name = "int" then do
        let s ← Parser.next s
        let (v, s) ← expect_value "integer" (fun d => (parse_i32 d).map .int) s
        let s ← expect_close name s
        .ok (v, s)
      else if name = "i8" then do
        let s ← Parser.next s
        let (v, s) ← expect_value "i8" (fun d => (parse_i64 d).map .int64) s
        let s ← expect_close name s
        .ok (v, s)
      else if name = "boolean" then do
        let s ← Parser.next s
        let (v, s) ← expect_value "boolean"
          (fun d => if d = "0" then some (.bool false)
            else if d = "1" then some (.bool true) else none) s
        let s ← expect_close name s
        .ok (v, s)
      else if name = "double" then do
        let s ← Parser.next s
        let (v, s) ← expect_value "double"
          (fun d => if f64_accepts d then some (.double d) else none) s
        let s ← expect_close name s
        .ok (v, s)
      else if name = "dateTime.iso8601" then do
        let s ← Parser.next s
        let (v, s) ← expect_value "dateTime.iso8601"
          (fun d => (iso8601_datetime d).map .dateTime) s
        let s ← expect_close name s
        .ok (v, s)
      else .error (expectedErr s "valid type tag")
    | .characters data => do
      let s ← Parser.next s
      .ok (.str data, s)
    | _ => .error (expectedErr s "type tag or characters")

/-- The `<struct>` loop: `<member><name>KEY</name>VALUE</member>` until
`</struct>`, inserting each member into the map (later members overwrite
earlier ones with the same name). -/
def parse_struct_body (fuel : Nat) (s : PState) (members : List (String × Value)) :
    Except ParseError (Value × PState) :=
  match fuel with
  | 0 => .error .outOfFuel
  | fuel + 1 =>
    match expect_close "struct" s with
    | .ok s' => .ok (.struct members, s')
    | .error _ => do
      let s ← expect_open "member" s
      let s ← expect_open "name" s
      match s.cur with
      | .characters name => do
        let s ← Parser.next s
        let s ← expect_close "name" s
        let (v, s) ← parse_value fuel s
        let s ← expect_close "member" s
        parse_struct_body fuel s (binsert name v members)
      | _ => .error (expectedErr s "characters")

/-- The `<array>` loop: nested `<value>` elements until `</data>`. -/
def parse_array_body (fuel : Nat) (s : PState) (acc : List Value) :
    Except ParseError (List Value × PState) :=
  match fuel with
  | 0 => .error .outOfFuel
  | fuel + 1 =>
    match expect_close "data" s with
    | .ok s' => .ok (acc, s')
    | .error _ => do
      let (v, s) ← parse_value fuel s
      parse_array_body fuel s (acc ++ [v])

end

/-- The `Parser::parse_response`: `<methodResponse>`, then either a `<fault>`
whose value must convert via `Fault::from_value` (a malformed fault is an
`XmlError` built from an `io::Error`), or `<params><param>VALUE</param>`.
Note that nothing after the first `</param>` (or after the fault value)
is consumed or checked. -/
def parse_response (fuel : Nat) (s : PState) : Except ParseError Response := do
  let s ← expect_open "methodResponse" s
  match s.cur with
  | .startElement n _ =>
    if n.local_name = "fault" then do
      let s ← Parser.next s
      let (v, _) ← parse_value fuel s
      match Fault.from_value v with
      | some fault => .ok (.error fault)
      | none => .error (.xmlError "malformed <fault>")
    else if n.local_name = "params" then do
      let s ← Parser.next s
      let s ← expect_open "param" s
      let (v, s) ← parse_value fuel s
      let _ ← expect_close "param" s
      .ok (.ok v)
    else .error (expectedErr s ("<fault> or <params>, got " ++ n.display))
  | _ => .error (expectedErr s "<fault> or <params>")

/-- The `Parser::new`: the cursor starts on a dummy `EndDocument` token and
is advanced once. -/
def parser_new (events : List XmlEvent) : Except ParseError PState :=
  Parser.next ⟨.endDocument, events⟩

/-- Top-level `parse_response` on an event stream, with the fuel the
totality theorem (C9) proves sufficient. -/
def parse_response_events (events : List XmlEvent) : Except ParseError Response := do
  let s ← parser_new events
  parse_response (events.length + 1) s

/-- Top-level `parse_value` on an event stream (`Parser::new` followed by
`parse_value`, as in the test helper `read_value`). -/
def parse_value_events (events : List XmlEvent) : Except ParseError Value := do
  let s ← parser_new events
  let (v, _) ← parse_value (events.length + 1) s
  pure v


/-! ## The writer (`src/value.rs` `write_as_xml`, `src/utils.rs`) -/

/-- Per-character escaping map of `xml-rs`'s `escape_str_pcdata`:
`<` becomes `&lt;` and `&` becomes `&amp;`; every other character is kept
(PCDATA needs no further escaping, as the crate's own tests show `>`
passing through). -/
def escapeChars : List Char → List Char
  | [] => []
  | c :: t =>
    if c = '<' then '&' :: 'l' :: 't' :: ';' :: escapeChars t
    else if c = '&' then '&' :: 'a' :: 'm' :: 'p' :: ';' :: escapeChars t
    else c :: escapeChars t

/-- The `escape_xml` from `src/utils.rs`, which delegates to
`escape_str_pcdata` (modelled by `escapeChars`). -/
def escape_xml (s : String) : String := ⟨escapeChars s.data⟩

/-- The escaping map one character at a time, for stating the escaping
claim against `escapeChars`. -/
def escChar (c : Char) : String :=
  if c = '<' then "&lt;" else if c = '&' then "&amp;" else c.toString

/-- Left-pad a digit string with zeros to the given width. -/
def pad0 (w : Nat) (s : List Char) : List Char :=
  List.replicate (w - s.length) '0' ++ s

/-- Rust's `{:0w}` format of an unsigned number. -/
def fmtNatPad (w : Nat) (n : Nat) : String := ⟨pad0 w (Nat.repr n).data⟩

/-- Rust's `{:0w}` format of a signed number: the zero padding counts the
sign, so a negative value pads the digits to `w - 1`. -/
def fmtIntPad (w : Nat) (i : Int) : String :=
  if i < 0 then ⟨'-' :: pad0 (w - 1) (Nat.repr i.natAbs).data⟩
  else ⟨pad0 w (Nat.repr i.toNat).data⟩

/-- Rust's `{:+03}` format: always a sign, digits padded to two. -/
def fmtIntSignPad3 (i : Int) : String :=
  if i < 0 then ⟨'-' :: pad0 2 (Nat.repr i.natAbs).data⟩
  else ⟨'+' :: pad0 2 (Nat.repr i.toNat).data⟩

/-- The `format_datetime` from `src/utils.rs`.  Gregorian dates produce
`YYYYMMDDTHH:MM:SS`, then `.` and the millisecond value when it is
nonzero — the source writes `.{:.3}`, and Rust *ignores* the precision
flag for integers, so the digits are written unpadded (`Nat.repr`) —
then `±HH:MM` when the offset is nonzero (`{:+03}` on the hours and
`{:02}` on `minutes.abs()`).  Week and ordinal dates hit
`unimplemented!()`, modelled as `none`. -/
def format_datetime (dt : Iso8601DateTime) : Option String :=
  match dt.date with
  | .ymd year month day =>
    let t := dt.time
    let base := fmtIntPad 4 year ++ fmtNatPad 2 month ++ fmtNatPad 2 day ++ "T" ++
      fmtNatPad 2 t.hour ++ ":" ++ fmtNatPad 2 t.minute ++ ":" ++ fmtNatPad 2 t.second
    let withMs := if t.millisecond > 0 then base ++ "." ++ Nat.repr t.millisecond else base
    some (if t.tz_offset_hours ≠ 0 ∨ t.tz_offset_minutes ≠ 0 then
      withMs ++ fmtIntSignPad3 t.tz_offset_hours ++ ":" ++ fmtNatPad 2 t.tz_offset_minutes.natAbs
    else withMs)
  | .week _ _ _ => none
  | .ordinal _ _ => none

/-- Character of a 6-bit value in the standard base64 alphabet. -/
def b64Char (n : Nat) : Char :=
  if n < 26 then Char.ofNat (65 + n)
  else if n < 52 then Char.ofNat (97 + (n - 26))
  else if n < 62 then Char.ofNat (48 + (n - 52))
  else if n = 62 then '+'
  else '/'

/-- Standard padded base64 encoding of a byte list, three bytes at a
time; models the `base64` crate's `encode`. -/
def b64EncodeGroups : List Nat → List Char
  | [] => []
  | [a] => [b64Char (a / 4), b64Char (a % 4 * 16), '=', '=']
  | [a, b] => [b64Char (a / 4), b64Char (a % 4 * 16 + b / 16), b64Char (b % 16 * 4), '=']
  | a :: b :: c :: t =>
    b64Char (a / 4) :: b64Char (a % 4 * 16 + b / 16) :: b64Char (b % 16 * 4 + c / 64) ::
      b64Char (c % 64) :: b64EncodeGroups t

/-- The `base64` crate's `encode`. -/
def base64_encode (bytes : List Nat) : String := ⟨b64EncodeGroups bytes⟩

mutual

/-- The `Value::write_as_xml`: append one `<value>...</value>` element
(each `writeln!` ends its line with a newline).  The only failing path is
a `DateTime` with a week/ordinal date, where the source panics with
`unimplemented!()` (modelled as `none`); sink errors do not exist for the
in-memory `String` sink.  The `Double` branch writes the modelled raw
text (the source renders the `f64` with `Display`; no claim depends on
it). -/
def write_value_xml : Value → Option String
  | .int i => some ("<value>\n<i4>" ++ i.repr ++ "</i4>\n</value>\n")
  | .int64 i => some ("<value>\n<i8>" ++ i.repr ++ "</i8>\n</value>\n")
  | .bool b => some ("<value>\n<boolean>" ++ (if b then "1" else "0") ++ "</boolean>\n</value>\n")
  | .str s => some ("<value>\n<string>" ++ escape_xml s ++ "</string>\n</value>\n")
  | .double raw => some ("<value>\n<double>" ++ raw ++ "</double>\n</value>\n")
  | .dateTime dt => do
    let f ← format_datetime dt
    pure ("<value>\n<dateTime.iso8601>" ++ f ++ "</dateTime.iso8601>\n</value>\n")
  | .base64 bytes => some ("<value>\n<base64>" ++ base64_encode bytes ++ "</base64>\n</value>\n")
  | .struct map => do
    let inner ← write_members map
    pure ("<value>\n<struct>\n" ++ inner ++ "</struct>\n</value>\n")
  | .array elements => do
    let inner ← write_elements elements
    pure ("<value>\n<array>\n<data>\n" ++ inner ++ "</data>\n</array>\n</value>\n")
  | .nil => some "<value>\n<nil/>\n</value>\n"

/-- The struct-member loop of `write_as_xml`: one
`<member><name>KEY</name>VALUE</member>` per entry in map order. -/
def write_members : List (String × Value) → Option String
  | [] => some ""
  | (name, v) :: t => do
    let inner ← write_value_xml v
    let rest ← write_members t
    pure ("<member>\n<name>" ++ escape_xml name ++ "</name>\n" ++ inner ++ "</member>\n" ++ rest)

/-- The array-element loop of `write_as_xml`. -/
def write_elements : List Value → Option String
  | [] => some ""
  | v :: t => do
    let inner ← write_value_xml v
    let rest ← write_elements t
    pure (inner ++ rest)

end


/-! ## The XML tokenizer

The event stream consumed by the parser is produced by the external
`xml-rs` `EventReader`, which is not part of this repository.  The spec
describes this layer as "a pull-style XML token stream" with start-tags
carrying an attribute count, end-tags, character data and
end-of-document, whitespace-only character data being delivered as a
separate `Whitespace` event and entity references decoded into the text.
The tokenizer below models exactly that, for the XML subset the claims
exercise: tags with optionally quoted attributes, self-closing tags
(which produce a start event followed by an end event, indistinguishable
from an empty element, as in `xml-rs`), comments, processing
instructions, and the five predefined entities.  DTDs, CDATA sections,
namespace prefixes and character references are not modelled (`none`),
and malformedness is reported eagerly rather than lazily; none of the
claims depend on documents using those features. -/

/-- Characters allowed in a (simplified) XML name. -/
def nameChar (c : Char) : Bool :=
  c.isAlpha || c.isDigit || c = '_' || c = '-' || c = '.' || c = ':'

/-- Drop leading XML whitespace. -/
def skipWs (cs : List Char) : List Char := cs.dropWhile isXmlWs

/-- Skip a quoted attribute value, returning the input after the closing
quote. -/
def scanQuoted (q : Char) : List Char → Option (List Char)
  | [] => none
  | c :: t => if c = q then some t else scanQuoted q t

/-- Skip a processing instruction, returning the input after `?>`. -/
def scanPI : List Char → Option (List Char)
  | '?' :: '>' :: r => some r
  | _ :: t => scanPI t
  | [] => none

/-- Skip a comment, returning the input after `-->`. -/
def scanComment : List Char → Option (List Char)
  | '-' :: '-' :: '>' :: r => some r
  | _ :: t => scanComment t
  | [] => none

/-- Scan the attribute list of a start tag: returns the attribute count,
whether the tag is self-closing, and the input after `>`. -/
def scanAttrs : Nat → List Char → Option (Nat × Bool × List Char)
  | 0, _ => none
  | fuel + 1, cs =>
    match skipWs cs with
    | '>' :: r => some (0, false, r)
    | '/' :: '>' :: r => some (0, true, r)
    | rest =>
      let (nm, r1) := rest.span nameChar
      if nm.isEmpty then none
      else
        match skipWs r1 with
        | '=' :: r2 =>
          match skipWs r2 with
          | q :: r3 =>
            if q = '"' ∨ q = (Char.ofNat 39) then
              match scanQuoted q r3 with
              | some r4 =>
                (scanAttrs fuel r4).map (fun t => (t.1 + 1, t.2.1, t.2.2))
              | none => none
            else none
          | [] => none
        | _ => none

/-- The five predefined XML entity references, matched right after a
`&`. -/
def entity : List Char → Option (Char × List Char)
  | 'l' :: 't' :: ';' :: r => some ('<', r)
  | 'g' :: 't' :: ';' :: r => some ('>', r)
  | 'a' :: 'm' :: 'p' :: ';' :: r => some ('&', r)
  | 'a' :: 'p' :: 'o' :: 's' :: ';' :: r => some ((Char.ofNat 39), r)
  | 'q' :: 'u' :: 'o' :: 't' :: ';' :: r => some ('"', r)
  | _ => none

/-- Scan a run of character data up to the next `<` (or the end of
input), decoding the predefined entity references; an unknown entity is
a tokenizer error.  The fuel decreases once per decoded character; the
caller passes `length + 2`, which always suffices. -/
def scanText : Nat → List Char → Option (List Char × List Char)
  | 0, _ => none
  | _, [] => some ([], [])
  | fuel + 1, c :: r =>
    if c = '<' then some ([], c :: r)
    else if c = '&' then
      match entity r with
      | some (d, r2) => (scanText fuel r2).map (fun p => (d :: p.1, p.2))
      | none => none
    else (scanText fuel r).map (fun p => (c :: p.1, p.2))

/-- Scan one tag (or processing instruction or comment), starting right
after the opening `<`: returns the produced events (a self-closing tag
yields a start event immediately followed by an end event, as the
`xml-rs` reader does) and the remaining input. -/
def scanTag (r : List Char) : Option (List XmlEvent × List Char) :=
  match r with
  | [] => none
  | q :: r2 =>
    if q = '?' then
      match scanPI r2 with
      | some rest => some ([.processingInstruction], rest)
      | none => none
    else if q = '!' then
      match r2 with
      | d1 :: d2 :: r3 =>
        if d1 = '-' ∧ d2 = '-' then
          match scanComment r3 with
          | some rest => some ([.comment ""], rest)
          | none => none
        else none
      | _ => none
    else if q = '/' then
      let (nm, r3) := r2.span nameChar
      if nm.isEmpty || nm.contains ':' then none
      else
        match skipWs r3 with
        | g :: rest =>
          if g = '>' then some ([.endElement ⟨none, none, ⟨nm⟩⟩], rest)
          else none
        | [] => none
    else
      let (nm, r2) := r.span nameChar
      if nm.isEmpty || nm.contains ':' then none
      else
        match scanAttrs (r2.length + 1) r2 with
        | some (count, selfClose, rest) =>
          some ((if selfClose then
              [.startElement ⟨none, none, ⟨nm⟩⟩ count, .endElement ⟨none, none, ⟨nm⟩⟩]
            else [.startElement ⟨none, none, ⟨nm⟩⟩ count]), rest)
        | none => none

/-- The tokenizer loop.  The fuel decreases once per produced event
group; each group consumes at least one character, so the entry point's
`length + 1` always suffices. -/
def tokenizeAux : Nat → List Char → Option (List XmlEvent)
  | 0, _ => none
  | _, [] => some []
  | fuel + 1, c :: r =>
    if c = '<' then
      match scanTag r with
      | some (evs, rest) => (tokenizeAux fuel rest).map (evs ++ ·)
      | none => none
    else
      match scanText (r.length + 2) (c :: r) with
      | some (decoded, rest) =>
        let ev := if decoded.all isXmlWs then XmlEvent.whitespace ⟨decoded⟩
          else XmlEvent.characters ⟨decoded⟩
        (tokenizeAux fuel rest).map (ev :: ·)
      | none => none

/-- Tokenize a document: a `StartDocument` event followed by the events
of the content. -/
def tokenize (doc : String) : Option (List XmlEvent) :=
  (tokenizeAux (doc.data.length + 1) doc.data).map (.startDocument :: ·)

/-- The `parse_response` from a document string: tokenize (a reader error
surfaces as `ParseError::XmlError`) and parse. -/
def parse_response_str (doc : String) : Except ParseError Response :=
  match tokenize doc with
  | some events => parse_response_events events
  | none => .error (.xmlError "malformed XML")

/-- The `Parser::new` + `parse_value` from a document string (the shape of
the test helper `read_value`). -/
def parse_value_str (doc : String) : Except ParseError Value :=
  match tokenize doc with
  | some events => parse_value_events events
  | none => .error (.xmlError "malformed XML")


/-! ## Statement-level helper definitions -/

/-- Is this parse outcome a parse error? -/
def isErr {A : Type} : Except ParseError A → Bool
  | .error _ => true
  | .ok _ => false

/-- Shorthand for a plain (unprefixed, attribute-free capable) tag name. -/
def plainName (s : String) : XmlName := ⟨none, none, s⟩

/-! ## The progress measure and step unfoldings used by the totality proof -/

/-- Is this the `EndDocument` token? -/
def isEndDoc : XmlEvent → Bool
  | .endDocument => true
  | _ => false

/-- Progress measure of a parser state: the unread stream length, plus
one when the current token still carries information (`EndDocument` is
what the exhausted reader returns forever). -/
def PState.meas (s : PState) : Nat :=
  s.rest.length + (if isEndDoc s.cur then 0 else 1)

/-- One unfolding of `parse_value` at positive fuel, as an explicit bind
chain (used to walk the parser in the totality proof). -/
def parse_value_step (fuel : Nat) (s : PState) : Except ParseError (Value × PState) :=
  expect_open "value" s >>= fun s1 =>
    match expect_close "value" s1 with
    | .ok s2 => .ok (.str "", s2)
    | .error _ =>
      parse_value_inner fuel s1 >>= fun p =>
        expect_close "value" p.2 >>= fun s3 => .ok (p.1, s3)

/-- One unfolding of `parse_value_inner` at positive fuel. -/
def parse_value_inner_step (fuel : Nat) (s : PState) : Except ParseError (Value × PState) :=
  match s.cur with
  | .startElement nn _ =>
    if nn.local_name = "struct" then
      Parser.next s >>= fun s1 => parse_struct_body fuel s1 []
    else if nn.local_name = "array" then
      Parser.next s >>= fun s1 => expect_open "data" s1 >>= fun s2 =>
        parse_array_body fuel s2 [] >>= fun q =>
          expect_close "array" q.2 >>= fun s3 => .ok (.array q.1, s3)
    else if nn.local_name = "nil" then
      Parser.next s >>= fun s1 => expect_close "nil" s1 >>= fun s2 => .ok (.nil, s2)
    else if nn.local_name = "string" then
      Parser.next s >>= fun s1 =>
        match s1.cur with
        | .characters data =>
          Parser.next s1 >>= fun s2 => expect_close "string" s2 >>= fun s3 =>
            .ok (.str data, s3)
        | .endElement n2 =>
          if n2.local_name = "string" then Parser.next s1 >>= fun s2 => .ok (.str "", s2)
          else .error (expectedErr s1 "characters or </string>")
        | _ => .error (expectedErr s1 "characters or </string>")
    else if nn.local_name = "base64" then
      Parser.next s >>= fun s1 =>
        match s1.cur with
        | .characters data =>
          Parser.next s1 >>= fun s2 => expect_close "base64" s2 >>= fun s3 =>
            match base64_decode data with
            | some bytes => .ok (.base64 bytes, s3)
            | none => .error (.invalidValue "base64" data)
        | .endElement n2 =>
          if n2.local_name = "base64" then Parser.next s1 >>= fun s2 => .ok (.base64 [], s2)
          else .error (expectedErr s1 "characters or </base64>")
        | _ => .error (expectedErr s1 "characters or </base64>")
    else if nn.local_name = "i4" ∨ nn.local_name = "int" then
      Parser.next s >>= fun s1 =>
        expect_value "integer" (fun d => (parse_i32 d).map .int) s1 >>= fun q =>
          expect_close nn.local_name q.2 >>= fun s3 => .ok (q.1, s3)
    else if nn.local_name = "i8" then
      Parser.next s >>= fun s1 =>
        expect_value "i8" (fun d => (parse_i64 d).map .int64) s1 >>= fun q =>
          expect_close nn.local_name q.2 >>= fun s3 => .ok (q.1, s3)
    else if nn.local_name = "boolean" then
      Parser.next s >>= fun s1 =>
        expect_value "boolean"
          (fun d => if d = "0" then some (.bool false)
            else if d = "1" then some (.bool true) else none) s1 >>= fun q =>
          expect_close nn.local_name q.2 >>= fun s3 => .ok (q.1, s3)
    else if nn.local_name = "double" then
      Parser.next s >>= fun s1 =>
        expect_value "double"
          (fun d => if f64_accepts d then some (.double d) else none) s1 >>= fun q =>
          expect_close nn.local_name q.2 >>= fun s3 => .ok (q.1, s3)
    else if nn.local_name = "dateTime.iso8601" then
      Parser.next s >>= fun s1 =>
        expect_value "dateTime.iso8601"
          (fun d => (iso8601_datetime d).map .dateTime) s1 >>= fun q =>
          expect_close nn.local_name q.2 >>= fun s3 => .ok (q.1, s3)
    else .error (expectedErr s "valid type tag")
  | .characters data => Parser.next s >>= fun s1 => .ok (.str data, s1)
  | _ => .error (expectedErr s "type tag or characters")

/-- One unfolding of the `<struct>` loop at positive fuel. -/
def parse_struct_body_step (fuel : Nat) (s : PState) (members : List (String × Value)) :
    Except ParseError (Value × PState) :=
  match expect_close "struct" s with
  | .ok s1 => .ok (.struct members, s1)
  | .error _ =>
    expect_open "member" s >>= fun s1 =>
      expect_open "name" s1 >>= fun s2 =>
        match s2.cur with
        | .characters name =>
          Parser.next s2 >>= fun s3 =>
            expect_close "name" s3 >>= fun s4 =>
              parse_value fuel s4 >>= fun q =>
                expect_close "member" q.2 >>= fun s6 =>
                  parse_struct_body fuel s6 (binsert name q.1 members)
        | _ => .error (expectedErr s2 "characters")

/-- One unfolding of the `<array>` loop at positive fuel. -/
def parse_array_body_step (fuel : Nat) (s : PState) (acc : List Value) :
    Except ParseError (List Value × PState) :=
  match expect_close "data" s with
  | .ok s1 => .ok (acc, s1)
  | .error _ =>
    parse_value fuel s >>= fun q => parse_array_body fuel q.2 (acc ++ [q.1])

/-- Does this parse result report fuel exhaustion (the artifact error the
embedding adds to model the Rust recursion)? -/
def isFuelErr {A : Type} : Except ParseError A → Bool
  | .error .outOfFuel => true
  | _ => false

/-! ## Claim theorems and supporting lemmas -/

/-- C1: for every constructible `Fault` (any code, any message),
`Fault::from_value (Fault::to_value f) = Some f`: `to_value` is an exact
right-inverse of `from_value`. -/
theorem fault_to_value_from_value_roundtrip (f : Fault) :
    Fault.from_value (Fault.to_value f) = some f := rfl

/-- C5: evaluation of `format_datetime` at the failing input.  The source
writes the fractional part with `write!(string, ".{:.3}", millisecond)`,
and Rust ignores the precision flag for integers, so 42 milliseconds are
written as `.42` — which reads back as 420 ms — instead of the
three-digit `.042` the claim (and the format's round-trip intent)
requires.  The second conjunct shows that the source's own test value,
400, happens to mask the bug; the third states the divergence. -/
theorem format_datetime_fraction_not_three_digits :
    format_datetime ⟨.ymd 2016 5 2, ⟨6, 1, 5, 42, 0, 0⟩⟩ = some "20160502T06:01:05.42" ∧
    format_datetime ⟨.ymd 2016 5 2, ⟨6, 1, 5, 400, 0, 0⟩⟩ = some "20160502T06:01:05.400" ∧
    "20160502T06:01:05.42" ≠ "20160502T06:01:05.042" :=
  ⟨rfl, rfl, by decide⟩

/-- C10: square-bracket indexing on `Value` is total and returns the
inner value exactly when present — a struct member for a string key, an
in-bounds array element for a positional index — and `Value::Nil` in
every other case; it coincides with `get` with `None` replaced by `Nil`. -/
theorem value_index_total_and_agrees_with_get (v : Value) (key : String) (i : Nat) :
    (v.indexKey key = (v.getKey key).getD .nil) ∧
    (v.indexIdx i = (v.getIdx i).getD .nil) ∧
    (∀ m x, v = .struct m → bget m key = some x → v.indexKey key = x) ∧
    (∀ m, v = .struct m → bget m key = none → v.indexKey key = .nil) ∧
    ((∀ m, v ≠ .struct m) → v.indexKey key = .nil) ∧
    (∀ xs x, v = .array xs → xs[i]? = some x → v.indexIdx i = x) ∧
    (∀ xs, v = .array xs → xs.length ≤ i → v.indexIdx i = .nil) ∧
    ((∀ xs, v ≠ .array xs) → v.indexIdx i = .nil) := by
  refine ⟨rfl, rfl, ?_, ?_, ?_, ?_, ?_, ?_⟩
  · rintro m x rfl h
    simp [Value.indexKey, Value.getKey, h]
  · rintro m rfl h
    simp [Value.indexKey, Value.getKey, h]
  · intro h
    cases v <;> simp [Value.indexKey, Value.getKey]
    exact absurd rfl (h _)
  · rintro xs x rfl h
    simp [Value.indexIdx, Value.getIdx, h]
  · rintro xs rfl h
    simp [Value.indexIdx, Value.getIdx, List.getElem?_eq_none h]
  · intro h
    cases v <;> simp [Value.indexIdx, Value.getIdx]
    exact absurd rfl (h _)

/-- C10 witness: the theorem applied at concrete inputs, discharging its
hypotheses there. -/
theorem value_index_total_and_agrees_with_get_witness :
    Value.indexKey (.struct [("age", .int 37)]) "age" = .int 37 ∧
    Value.indexKey (.struct [("age", .int 37)]) "name" = .nil ∧
    Value.indexKey .nil "age" = .nil ∧
    Value.indexIdx (.array [.str "a"]) 0 = .str "a" ∧
    Value.indexIdx (.array [.str "a"]) 2 = .nil ∧
    Value.indexIdx (.int 5) 0 = .nil := by
  refine ⟨?_, ?_, ?_, ?_, ?_, ?_⟩
  · exact (value_index_total_and_agrees_with_get (.struct [("age", .int 37)]) "age" 0).2.2.1
      _ _ rfl rfl
  · exact (value_index_total_and_agrees_with_get (.struct [("age", .int 37)]) "name" 0).2.2.2.1
      _ rfl rfl
  · exact (value_index_total_and_agrees_with_get .nil "age" 0).2.2.2.2.1
      (by intro m h; exact Value.noConfusion h)
  · exact (value_index_total_and_agrees_with_get (.array [.str "a"]) "" 0).2.2.2.2.2.1
      _ _ rfl rfl
  · exact (value_index_total_and_agrees_with_get (.array [.str "a"]) "" 2).2.2.2.2.2.2.1
      _ rfl (by norm_num)
  · exact (value_index_total_and_agrees_with_get (.int 5) "" 0).2.2.2.2.2.2.2
      (by intro xs h; exact Value.noConfusion h)


/-- The `Except.bind` on a success passes the value on (used to step through
the parser's `do` blocks). -/
theorem exbind_ok {A B : Type} (a : A) (f : A → Except ParseError B) :
    (Except.ok a >>= f) = f a := rfl

/-- Inserting twice under the same key leaves a single entry holding the
second value (`BTreeMap::insert` overwrites). -/
theorem binsert_same_key_last_wins (k : String) (v w : Value) :
    binsert k w (binsert k v []) = [(k, w)] := by
  simp [binsert]

/-- C4: each of the four empty-value documents `<value></value>`,
`<value/>`, `<value><string></string></value>` and
`<value><string/></value>` parses successfully to the empty
`Value::String`. -/
theorem parse_empty_value_forms_yield_empty_string :
    parse_value_str "<value></value>" = .ok (.str "") ∧
    parse_value_str "<value/>" = .ok (.str "") ∧
    parse_value_str "<value><string></string></value>" = .ok (.str "") ∧
    parse_value_str "<value><string/></value>" = .ok (.str "") :=
  ⟨rfl, rfl, rfl, rfl⟩

/-- C3: parsing a `<struct>` whose two `<member>` entries carry the same
`<name>` text `n` (with arbitrary raw-string member values `a` then `b`)
yields a `Struct` with exactly one entry for `n`, holding the second
occurrence's value. -/
theorem parse_struct_duplicate_member_last_wins (n a b : String) :
    parse_value_events [
      .startElement (plainName "value") 0, .startElement (plainName "struct") 0,
      .startElement (plainName "member") 0, .startElement (plainName "name") 0,
      .characters n, .endElement (plainName "name"),
      .startElement (plainName "value") 0, .characters a, .endElement (plainName "value"),
      .endElement (plainName "member"),
      .startElement (plainName "member") 0, .startElement (plainName "name") 0,
      .characters n, .endElement (plainName "name"),
      .startElement (plainName "value") 0, .characters b, .endElement (plainName "value"),
      .endElement (plainName "member"),
      .endElement (plainName "struct"), .endElement (plainName "value")] =
    .ok (.struct [(n, .str b)]) := by
  have h : parse_value_events [
      .startElement (plainName "value") 0, .startElement (plainName "struct") 0,
      .startElement (plainName "member") 0, .startElement (plainName "name") 0,
      .characters n, .endElement (plainName "name"),
      .startElement (plainName "value") 0, .characters a, .endElement (plainName "value"),
      .endElement (plainName "member"),
      .startElement (plainName "member") 0, .startElement (plainName "name") 0,
      .characters n, .endElement (plainName "name"),
      .startElement (plainName "value") 0, .characters b, .endElement (plainName "value"),
      .endElement (plainName "member"),
      .endElement (plainName "struct"), .endElement (plainName "value")] =
    .ok (.struct (binsert n (.str b) (binsert n (.str a) []))) := rfl
  rw [h, binsert_same_key_last_wins]

/-- C2: a `<methodResponse>` whose sole child is a `<fault>` containing
any value `v` rejected by `Fault::from_value` — a struct that is not
exactly a two-member `faultCode: Int` / `faultString: String` record —
makes `parse_response` return the "malformed fault" parse error: neither
an `Err(Fault)` nor an `Ok` value. -/
theorem parse_response_malformed_fault_is_parse_error
    (fuel : Nat) (body : List XmlEvent) (s2 : PState) (v : Value) (s3 : PState)
    (hnext : nextAux ⟨.startElement (plainName "fault") 0, body⟩ body = .ok s2)
    (hval : parse_value fuel s2 = .ok (v, s3))
    (hbad : Fault.from_value v = none) :
    parse_response fuel
      ⟨.startElement (plainName "methodResponse") 0,
        .startElement (plainName "fault") 0 :: body⟩ =
    .error (.xmlError "malformed <fault>") := by
  have hstep : parse_response fuel
      ⟨.startElement (plainName "methodResponse") 0,
        .startElement (plainName "fault") 0 :: body⟩ =
      (nextAux ⟨.startElement (plainName "fault") 0, body⟩ body >>= fun s =>
        parse_value fuel s >>= fun p =>
          match Fault.from_value p.1 with
          | some fault => .ok (.error fault)
          | none => .error (.xmlError "malformed <fault>")) := rfl
  rw [hstep, hnext, exbind_ok, hval, exbind_ok]
  simp only [hbad]

/-- C2 witness: a fault whose value is a plain string (so
`Fault::from_value` rejects it) is reported as the malformed-fault parse
error. -/
theorem parse_response_malformed_fault_is_parse_error_witness :
    parse_response 10
      ⟨.startElement (plainName "methodResponse") 0,
        .startElement (plainName "fault") 0 ::
          [.startElement (plainName "value") 0, .characters "oops",
           .endElement (plainName "value"), .endElement (plainName "fault"),
           .endElement (plainName "methodResponse")]⟩ =
    .error (.xmlError "malformed <fault>") :=
  parse_response_malformed_fault_is_parse_error 10
    [.startElement (plainName "value") 0, .characters "oops",
     .endElement (plainName "value"), .endElement (plainName "fault"),
     .endElement (plainName "methodResponse")]
    ⟨.startElement (plainName "value") 0,
      [.characters "oops", .endElement (plainName "value"),
       .endElement (plainName "fault"), .endElement (plainName "methodResponse")]⟩
    (.str "oops")
    ⟨.endElement (plainName "fault"), [.endElement (plainName "methodResponse")]⟩
    rfl rfl rfl

/-- C6 counterexample: a response whose `<params>` contains two
`<param>` elements parses *successfully* (returning the first param's
value) instead of reporting a trailing-tag parse error. -/
theorem parse_response_two_params_succeeds :
    parse_response_str "<methodResponse><params><param><value>x</value></param><param><value>y</value></param></params></methodResponse>" =
    .ok (.ok (.str "x")) := rfl

/-- C6 amended: `parse_response` stops consuming input right after the
first `</param>`: only the single event following it is pulled (and
validated) by the cursor advance, and everything after that — further
`<param>` elements, the `</params>` and `</methodResponse>` close tags —
is ignored, the parse succeeding with the first param's value. -/
theorem parse_response_ignores_content_after_first_param (fuel : Nat) (junk : List XmlEvent) :
    parse_response (fuel + 2)
      ⟨.startElement (plainName "methodResponse") 0,
        [.startElement (plainName "params") 0, .startElement (plainName "param") 0,
         .startElement (plainName "value") 0, .characters "x",
         .endElement (plainName "value"), .endElement (plainName "param"),
         .startElement (plainName "param") 0] ++ junk⟩ =
    .ok (.ok (.str "x")) := rfl

/-- C7 counterexample: a well-formed response document containing an
element with an attribute (`<value a="1">`, inside a second `<param>`)
is *accepted* by `parse_response`, because the attribute-bearing element
lies in the part of the document the parser never reads. -/
theorem parse_response_accepts_unread_attribute_element :
    parse_response_str "<methodResponse><params><param><value>x</value></param><param><value a=\"1\">y</value></param></params></methodResponse>" =
      .ok (.ok (.str "x")) ∧
    (tokenize "<methodResponse><params><param><value>x</value></param><param><value a=\"1\">y</value></param></params></methodResponse>").any
      (fun events => events.any (fun e =>
        match e with
        | .startElement _ attrs => attrs ≠ 0
        | _ => false)) = true :=
  ⟨rfl, rfl⟩

/-- C7 amended: every start-tag carrying at least one attribute is
rejected with a parse error at the moment the parser's cursor advance
(`Parser::next`) reads it — so no attribute-bearing element is ever
consumed — but elements in the unread trailing part of a document (see
the counterexample) are never examined at all. -/
theorem next_rejects_attribute_start_tag
    (c : XmlEvent) (n : XmlName) (attrs : Nat) (rest : List XmlEvent)
    (hattrs : attrs ≠ 0) :
    isErr (Parser.next ⟨c, .startElement n attrs :: rest⟩) = true := by
  by_cases h1 : n.ns.isSome ∨ n.pfx.isSome
  · simp [Parser.next, nextAux, h1, isErr]
  · simp [Parser.next, nextAux, h1, hattrs, isErr]

/-- C7 witness: the amended theorem at a concrete attribute-bearing tag. -/
theorem next_rejects_attribute_start_tag_witness :
    isErr (Parser.next ⟨.endDocument, [.startElement (plainName "value") 1]⟩) = true :=
  next_rejects_attribute_start_tag .endDocument (plainName "value") 1 []
    (by decide)


theorem escapeChars_cons_other (c : Char) (t : List Char) (h1 : c ≠ '<') (h2 : c ≠ '&') :
    escapeChars (c :: t) = c :: escapeChars t := by
  simp [escapeChars, h1, h2]

theorem scanText_lt (fuel : Nat) (r : List Char) :
    scanText (fuel + 1) ('<' :: r) = some ([], '<' :: r) := rfl

theorem scanText_ent_lt (fuel : Nat) (r : List Char) :
    scanText (fuel + 1) ('&' :: 'l' :: 't' :: ';' :: r) =
      (scanText fuel r).map (fun p => ('<' :: p.1, p.2)) := rfl

theorem scanText_ent_amp (fuel : Nat) (r : List Char) :
    scanText (fuel + 1) ('&' :: 'a' :: 'm' :: 'p' :: ';' :: r) =
      (scanText fuel r).map (fun p => ('&' :: p.1, p.2)) := rfl

theorem scanText_cons_other (fuel : Nat) (c : Char) (l : List Char)
    (h1 : c ≠ '<') (h2 : c ≠ '&') :
    scanText (fuel + 1) (c :: l) = (scanText fuel l).map (fun p => (c :: p.1, p.2)) := by
  simp [scanText, h1, h2]

theorem scanText_escape (extra : Nat) (l : List Char) (r : List Char) :
    scanText (extra + l.length + 1) (escapeChars l ++ '<' :: r) = some (l, '<' :: r) := by
  induction l with
  | nil => simpa [escapeChars] using scanText_lt extra r
  | cons c t ih =>
    by_cases h1 : c = '<'
    · subst h1
      have he : escapeChars ('<' :: t) = '&' :: 'l' :: 't' :: ';' :: escapeChars t := by
        simp [escapeChars]
      rw [he]
      show scanText ((extra + t.length + 1) + 1) ('&' :: 'l' :: 't' :: ';' :: (escapeChars t ++ '<' :: r)) = _
      rw [scanText_ent_lt, ih]
      rfl
    · by_cases h2 : c = '&'
      · subst h2
        have he : escapeChars ('&' :: t) = '&' :: 'a' :: 'm' :: 'p' :: ';' :: escapeChars t := by
          simp [escapeChars]
        rw [he]
        show scanText ((extra + t.length + 1) + 1) ('&' :: 'a' :: 'm' :: 'p' :: ';' :: (escapeChars t ++ '<' :: r)) = _
        rw [scanText_ent_amp, ih]
        rfl
      · rw [escapeChars_cons_other c t h1 h2, List.cons_append]
        show scanText ((extra + t.length + 1) + 1) (c :: (escapeChars t ++ '<' :: r)) = _
        rw [scanText_cons_other _ c _ h1 h2, ih]
        rfl

set_option maxHeartbeats 1000000 in
theorem tokenizeAux_text_step (fuel : Nat) (c : Char) (l : List Char) (h : c ≠ '<')
    (decoded rest : List Char)
    (hscan : scanText (l.length + 2) (c :: l) = some (decoded, rest))
    (hws : decoded.all isXmlWs = false) :
    tokenizeAux (fuel + 1) (c :: l) =
      (tokenizeAux fuel rest).map (fun evs => XmlEvent.characters ⟨decoded⟩ :: evs) := by
  rw [tokenizeAux.eq_def]
  show (if c = '<' then _
    else match scanText (l.length + 2) (c :: l) with
      | some (decoded, rest) =>
        (tokenizeAux fuel rest).map (fun evs =>
          (if decoded.all isXmlWs then XmlEvent.whitespace ⟨decoded⟩
            else XmlEvent.characters ⟨decoded⟩) :: evs)
      | none => none) = _
  rw [if_neg h, hscan]
  simp [hws]


theorem escapeChars_length_le (l : List Char) : l.length ≤ (escapeChars l).length := by
  induction l with
  | nil => simp [escapeChars]
  | cons c t ih =>
    by_cases h1 : c = '<'
    · subst h1; simp [escapeChars]; omega
    · by_cases h2 : c = '&'
      · subst h2; simp [escapeChars]; omega
      · rw [escapeChars_cons_other c t h1 h2]; simpa using ih

theorem escapeChars_cons_ne_nil (c : Char) (t : List Char) : escapeChars (c :: t) ≠ [] := by
  by_cases h1 : c = '<'
  · subst h1; simp [escapeChars]
  · by_cases h2 : c = '&'
    · subst h2; simp [escapeChars]
    · rw [escapeChars_cons_other c t h1 h2]; simp

theorem tokenizeAux_c8_prefix (m : Nat) (X : List Char) :
    tokenizeAux (m + 9) (("<value>\n<string>").data ++ X) =
      (((tokenizeAux (m + 6) X).map
          (fun evs => XmlEvent.startElement (plainName "string") 0 :: evs)).map
        (fun evs => XmlEvent.whitespace "\n" :: evs)).map
        (fun evs => XmlEvent.startElement (plainName "value") 0 :: evs) := rfl

theorem tokenizeAux_c8_suffix (m : Nat) :
    tokenizeAux (m + 5) (("</string>\n</value>\n").data) =
      some [XmlEvent.endElement (plainName "string"), XmlEvent.whitespace "\n",
        XmlEvent.endElement (plainName "value"), XmlEvent.whitespace "\n"] := rfl


/-- No raw `<` survives escaping. -/
theorem escapeChars_not_lt (l : List Char) : '<' ∉ escapeChars l := by
  induction l with
  | nil => simp [escapeChars]
  | cons c t ih =>
    by_cases h1 : c = '<'
    · subst h1; simp [escapeChars, ih]
    · by_cases h2 : c = '&'
      · subst h2; simp [escapeChars, ih]
      · rw [escapeChars_cons_other c t h1 h2]
        simp [ih]
        exact fun hh => h1 hh.symm

/-- Tokenizing the writer's output for a string value whose content is
not all-whitespace: one `Characters` event carrying exactly the original
string, between the `<string>` tags. -/
theorem c8_tokenize (s : String) (hall : s.data.all isXmlWs = false) :
    tokenize ("<value>\n<string>" ++ escape_xml s ++ "</string>\n</value>\n") =
      some [.startDocument, .startElement (plainName "value") 0, .whitespace "\n",
        .startElement (plainName "string") 0, .characters s,
        .endElement (plainName "string"), .whitespace "\n",
        .endElement (plainName "value"), .whitespace "\n"] := by
  have hne : s.data ≠ [] := fun hnil => by simp [hnil] at hall
  obtain ⟨c0, t0, hd⟩ : ∃ c0 t0, s.data = c0 :: t0 := by
    cases hs : s.data with
    | nil => exact absurd hs hne
    | cons a b => exact ⟨a, b, rfl⟩
  obtain ⟨c, cs', hcs⟩ : ∃ c cs', escapeChars s.data = c :: cs' := by
    cases he : escapeChars s.data with
    | nil => rw [hd] at he; exact absurd he (escapeChars_cons_ne_nil c0 t0)
    | cons a b => exact ⟨a, b, rfl⟩
  have hcne : c ≠ '<' := by
    intro hceq
    exact escapeChars_not_lt s.data (by rw [hcs, hceq]; exact List.mem_cons_self _ _)
  have hlecs : s.data.length ≤ cs'.length + 1 := by
    have := escapeChars_length_le s.data
    rw [hcs] at this
    simpa using this
  have hSlen : ("</string>\n</value>\n").data.length = 19 := rfl
  have hPlen : ("<value>\n<string>").data.length = 16 := rfl
  have hdata : ("<value>\n<string>" ++ escape_xml s ++ "</string>\n</value>\n").data =
      ("<value>\n<string>").data ++ (escapeChars s.data ++ ("</string>\n</value>\n").data) := by
    simp [String.data_append, escape_xml, List.append_assoc]
  have hdoclen : ("<value>\n<string>" ++ escape_xml s ++ "</string>\n</value>\n").data.length + 1 =
      ((cs'.length + 28) + 9) := by
    rw [hdata]
    simp only [List.length_append, hSlen, hPlen, hcs, List.length_cons]
    omega
  have hS : ("</string>\n</value>\n").data = '<' :: ("/string>\n</value>\n").data := rfl
  have harith : (cs' ++ ("</string>\n</value>\n").data).length + 2 =
      ((cs'.length + 20 - s.data.length) + s.data.length) + 1 := by
    simp only [List.length_append, hSlen]
    omega
  have hscan : scanText ((cs' ++ ("</string>\n</value>\n").data).length + 2)
      (c :: (cs' ++ ("</string>\n</value>\n").data)) =
      some (s.data, ("</string>\n</value>\n").data) := by
    rw [harith, hS]
    have := scanText_escape (cs'.length + 20 - s.data.length) s.data
      (("/string>\n</value>\n").data)
    rw [hcs] at this
    simpa [List.cons_append] using this
  unfold tokenize
  rw [hdoclen, hdata, tokenizeAux_c8_prefix, hcs, List.cons_append,
    tokenizeAux_text_step (cs'.length + 28 + 5) c _ hcne s.data _ hscan hall,
    tokenizeAux_c8_suffix]
  have hmk : (⟨s.data⟩ : String) = s := rfl
  simp [Option.map_map, hmk]


/-- Escaping is the per-character map `escChar`: `<` becomes `&lt;`,
`&` becomes `&amp;`, all other characters pass through. -/
theorem escapeChars_eq_flatMap (l : List Char) :
    escapeChars l = l.flatMap (fun ch => (escChar ch).data) := by
  induction l with
  | nil => simp [escapeChars]
  | cons c t ih =>
    by_cases h1 : c = '<'
    · subst h1; simp [escapeChars, escChar, ih]
    · by_cases h2 : c = '&'
      · subst h2; simp [escapeChars, escChar, ih]
      · rw [escapeChars_cons_other c t h1 h2]
        simp only [List.flatMap_cons, escChar, if_neg h1, if_neg h2, ih]
        simp [Char.toString]

/-- C8 (amended): encoding `Value::String(s)` escapes `<` to `&lt;` and
`&` to `&amp;` (second conjunct, via `escChar`), and for every `s` that
is empty or contains at least one non-whitespace character, parsing the
encoded element back recovers `Value::String(s)` exactly (third
conjunct).  The amendment excludes whitespace-only nonempty strings,
which the counterexample shows decode to the empty string because the
XML reader delivers all-whitespace character data as a skipped
`Whitespace` event. -/
theorem write_string_escapes_and_roundtrips (s : String)
    (h : s = "" ∨ ∃ ch ∈ s.data, isXmlWs ch = false) :
    write_value_xml (.str s) =
      some ("<value>\n<string>" ++ escape_xml s ++ "</string>\n</value>\n") ∧
    (escape_xml s).data = s.data.flatMap (fun ch => (escChar ch).data) ∧
    parse_value_str ("<value>\n<string>" ++ escape_xml s ++ "</string>\n</value>\n") =
      .ok (.str s) := by
  refine ⟨rfl, escapeChars_eq_flatMap s.data, ?_⟩
  rcases h with rfl | ⟨ch, hmem, hws⟩
  · rfl
  · have hall : s.data.all isXmlWs = false := by
      rw [Bool.eq_false_iff]
      intro hb
      have := List.all_eq_true.mp hb ch hmem
      rw [hws] at this
      exact Bool.noConfusion this
    simp only [parse_value_str, c8_tokenize s hall]
    rfl

/-- C8 witness: the round-trip theorem applied at `"a<b&c"`. -/
theorem write_string_escapes_and_roundtrips_witness :
    write_value_xml (.str "a<b&c") =
      some "<value>\n<string>a&lt;b&amp;c</string>\n</value>\n" ∧
    parse_value_str "<value>\n<string>a&lt;b&amp;c</string>\n</value>\n" =
      .ok (.str "a<b&c") := by
  have hx := write_string_escapes_and_roundtrips "a<b&c"
    (Or.inr ⟨'a', by decide, rfl⟩)
  have he : escape_xml "a<b&c" = "a&lt;b&amp;c" := rfl
  rw [he] at hx
  exact ⟨hx.1, hx.2.2⟩

/-- C8 counterexample: the whitespace-only string `" "` encodes to a
well-formed document whose decoding yields the *empty* string, so the
unrestricted round-trip claim is false. -/
theorem write_ws_only_string_not_recovered :
    write_value_xml (.str " ") = some "<value>\n<string> </string>\n</value>\n" ∧
    parse_value_str "<value>\n<string> </string>\n</value>\n" = .ok (.str "") ∧
    Value.str "" ≠ Value.str " " := by
  refine ⟨rfl, rfl, ?_⟩
  intro hh
  injection hh with h'
  exact absurd h' (by decide)


theorem nextAux_ok_le (s : PState) (l : List XmlEvent) (s' : PState)
    (h : nextAux s l = .ok s') : s'.meas ≤ l.length := by
  induction l generalizing s with
  | nil =>
    simp only [nextAux] at h
    cases h
    simp [PState.meas, isEndDoc]
  | cons e rest ih =>
    cases e with
    | startDocument => exact Nat.le_succ_of_le (ih _ h)
    | processingInstruction => exact Nat.le_succ_of_le (ih _ h)
    | comment t => exact Nat.le_succ_of_le (ih _ h)
    | whitespace t => exact Nat.le_succ_of_le (ih _ h)
    | startElement n attrs =>
      simp only [nextAux] at h
      by_cases h1 : n.ns.isSome ∨ n.pfx.isSome
      · rw [if_pos h1] at h; exact Except.noConfusion h
      · rw [if_neg h1] at h
        by_cases h2 : attrs ≠ 0
        · rw [if_pos h2] at h; exact Except.noConfusion h
        · rw [if_neg h2] at h
          cases h
          simp [PState.meas, isEndDoc]
    | endElement n =>
      simp only [nextAux] at h
      by_cases h1 : n.ns.isSome ∨ n.pfx.isSome
      · rw [if_pos h1] at h; exact Except.noConfusion h
      · rw [if_neg h1] at h
        cases h
        simp [PState.meas, isEndDoc]
    | characters d =>
      simp only [nextAux] at h
      cases h
      simp [PState.meas, isEndDoc]
    | cdata d =>
      simp only [nextAux] at h
      cases h
      simp [PState.meas, isEndDoc]
    | endDocument =>
      simp only [nextAux] at h
      cases h
      simp [PState.meas, isEndDoc]

theorem next_ok_le (s s' : PState) (h : Parser.next s = .ok s') : s'.meas ≤ s.meas := by
  have h1 := nextAux_ok_le s s.rest s' h
  unfold PState.meas at h1 ⊢
  exact le_trans h1 (Nat.le_add_right _ _)

theorem next_ok_lt (s s' : PState) (h : Parser.next s = .ok s')
    (hc : isEndDoc s.cur = false) : s'.meas < s.meas := by
  have h1 := nextAux_ok_le s s.rest s' h
  unfold PState.meas at h1 ⊢
  rw [hc]
  simpa using Nat.lt_succ_of_le h1

theorem expect_open_lt (tag : String) (s s' : PState)
    (h : expect_open tag s = .ok s') : s'.meas < s.meas := by
  unfold expect_open at h
  split at h
  · rename_i n attrs heq
    split at h
    · exact next_ok_lt s s' h (by rw [heq]; rfl)
    · exact Except.noConfusion h
  · exact Except.noConfusion h

theorem expect_close_lt (tag : String) (s s' : PState)
    (h : expect_close tag s = .ok s') : s'.meas < s.meas := by
  unfold expect_close at h
  split at h
  · rename_i n heq
    split at h
    · exact next_ok_lt s s' h (by rw [heq]; rfl)
    · exact Except.noConfusion h
  · exact Except.noConfusion h

theorem expect_value_lt (ft : String) (p : String → Option Value) (s : PState)
    (v : Value) (s' : PState) (h : expect_value ft p s = .ok (v, s')) :
    s'.meas < s.meas := by
  unfold expect_value at h
  split at h
  · rename_i d heq
    split at h
    · rename_i v0 hp
      cases hn : Parser.next s with
      | ok s1 =>
        rw [hn] at h
        simp only [Except.map] at h
        cases h
        exact next_ok_lt s _ hn (by rw [heq]; rfl)
      | error e =>
        rw [hn] at h
        simp only [Except.map] at h
        exact Except.noConfusion h
    · exact Except.noConfusion h
  · exact Except.noConfusion h


theorem parse_value_succ (fuel : Nat) (s : PState) :
    parse_value (fuel + 1) s = parse_value_step fuel s := rfl

theorem parse_value_inner_succ (fuel : Nat) (s : PState) :
    parse_value_inner (fuel + 1) s = parse_value_inner_step fuel s := rfl

theorem parse_struct_body_succ (fuel : Nat) (s : PState) (members : List (String × Value)) :
    parse_struct_body (fuel + 1) s members = parse_struct_body_step fuel s members := rfl

theorem parse_array_body_succ (fuel : Nat) (s : PState) (acc : List Value) :
    parse_array_body (fuel + 1) s acc = parse_array_body_step fuel s acc := rfl


/-- Every successful run of the parser's mutually recursive functions
strictly decreases the progress measure: the grammar always consumes
input. -/
theorem parse_decrease (fuel : Nat) :
    (∀ s v s', parse_value fuel s = .ok (v, s') → s'.meas < s.meas) ∧
    (∀ s v s', parse_value_inner fuel s = .ok (v, s') → s'.meas < s.meas) ∧
    (∀ s members v s', parse_struct_body fuel s members = .ok (v, s') → s'.meas < s.meas) ∧
    (∀ s acc l s', parse_array_body fuel s acc = .ok (l, s') → s'.meas < s.meas) := by
  induction fuel with
  | zero =>
    refine ⟨?_, ?_, ?_, ?_⟩
    · intro s v s' h; exact Except.noConfusion h
    · intro s v s' h; exact Except.noConfusion h
    · intro s members v s' h; exact Except.noConfusion h
    · intro s acc l s' h; exact Except.noConfusion h
  | succ n ih =>
    obtain ⟨ihv, ihi, ihs, iha⟩ := ih
    have scalar : ∀ (s0 : PState) (nmtag ft : String) (p : String → Option Value)
        (v : Value) (s' : PState), isEndDoc s0.cur = false →
        (Parser.next s0 >>= fun s1 =>
          expect_value ft p s1 >>= fun q =>
            expect_close nmtag q.2 >>= fun s3 => Except.ok (q.1, s3)) = .ok (v, s') →
        s'.meas < s0.meas := by
      intro s0 nmtag ft p v s' hnotend h
      cases hn : Parser.next s0 with
      | error e => rw [hn] at h; exact Except.noConfusion h
      | ok s1 =>
        rw [hn, exbind_ok] at h
        cases hv : expect_value ft p s1 with
        | error e => rw [hv] at h; exact Except.noConfusion h
        | ok q =>
          obtain ⟨qv, qs⟩ := q
          rw [hv, exbind_ok] at h
          cases hc : expect_close nmtag qs with
          | error e => rw [hc] at h; exact Except.noConfusion h
          | ok s3 =>
            rw [hc, exbind_ok] at h
            cases h
            have h1 := next_ok_lt s0 s1 hn hnotend
            have h2 := expect_value_lt ft p s1 qv qs hv
            have h3 := expect_close_lt nmtag qs _ hc
            omega
    refine ⟨?_, ?_, ?_, ?_⟩
    · -- parse_value
      intro s v s' h
      rw [parse_value_succ] at h
      unfold parse_value_step at h
      cases ho : expect_open "value" s with
      | error e => rw [ho] at h; exact Except.noConfusion h
      | ok s1 =>
        rw [ho, exbind_ok] at h
        have hlt1 := expect_open_lt "value" s s1 ho
        split at h
        · rename_i s2 heqc
          cases h
          exact lt_trans (expect_close_lt "value" s1 _ heqc) hlt1
        · cases hi : parse_value_inner n s1 with
          | error e2 => rw [hi] at h; exact Except.noConfusion h
          | ok p =>
            obtain ⟨pv, ps⟩ := p
            rw [hi, exbind_ok] at h
            have hlt2 := ihi s1 pv ps hi
            cases hc2 : expect_close "value" ps with
            | error e3 => rw [hc2] at h; exact Except.noConfusion h
            | ok s3 =>
              rw [hc2, exbind_ok] at h
              cases h
              have hlt3 := expect_close_lt "value" ps _ hc2
              omega
    · -- parse_value_inner
      intro s v s' h
      rw [parse_value_inner_succ] at h
      unfold parse_value_inner_step at h
      split at h
      · -- startElement
        rename_i nn attrs heq
        have hnotend : isEndDoc s.cur = false := by rw [heq]; rfl
        by_cases c1 : nn.local_name = "struct"
        · rw [if_pos c1] at h
          cases hn : Parser.next s with
          | error e => rw [hn] at h; exact Except.noConfusion h
          | ok s1 =>
            rw [hn, exbind_ok] at h
            have h1 := next_ok_lt s s1 hn hnotend
            have h2 := ihs s1 [] v s' h
            omega
        · rw [if_neg c1] at h
          by_cases c2 : nn.local_name = "array"
          · rw [if_pos c2] at h
            cases hn : Parser.next s with
            | error e => rw [hn] at h; exact Except.noConfusion h
            | ok s1 =>
              rw [hn, exbind_ok] at h
              cases ho : expect_open "data" s1 with
              | error e => rw [ho] at h; exact Except.noConfusion h
              | ok s2 =>
                rw [ho, exbind_ok] at h
                cases ha : parse_array_body n s2 [] with
                | error e => rw [ha] at h; exact Except.noConfusion h
                | ok q =>
                  obtain ⟨ql, qs⟩ := q
                  rw [ha, exbind_ok] at h
                  cases hc : expect_close "array" qs with
                  | error e => rw [hc] at h; exact Except.noConfusion h
                  | ok s3 =>
                    rw [hc, exbind_ok] at h
                    cases h
                    have h1 := next_ok_lt s s1 hn hnotend
                    have h2 := expect_open_lt "data" s1 s2 ho
                    have h3 := iha s2 [] ql qs ha
                    have h4 := expect_close_lt "array" qs _ hc
                    omega
          · rw [if_neg c2] at h
            by_cases c3 : nn.local_name = "nil"
            · rw [if_pos c3] at h
              cases hn : Parser.next s with
              | error e => rw [hn] at h; exact Except.noConfusion h
              | ok s1 =>
                rw [hn, exbind_ok] at h
                cases hc : expect_close "nil" s1 with
                | error e => rw [hc] at h; exact Except.noConfusion h
                | ok s2 =>
                  rw [hc, exbind_ok] at h
                  cases h
                  have h1 := next_ok_lt s s1 hn hnotend
                  have h2 := expect_close_lt "nil" s1 _ hc
                  omega
            · rw [if_neg c3] at h
              by_cases c4 : nn.local_name = "string"
              · rw [if_pos c4] at h
                cases hn : Parser.next s with
                | error e => rw [hn] at h; exact Except.noConfusion h
                | ok s1 =>
                  rw [hn, exbind_ok] at h
                  have h1 := next_ok_lt s s1 hn hnotend
                  split at h
                  · -- characters
                    rename_i data heq2
                    cases hn2 : Parser.next s1 with
                    | error e => rw [hn2] at h; exact Except.noConfusion h
                    | ok s2 =>
                      rw [hn2, exbind_ok] at h
                      cases hc : expect_close "string" s2 with
                      | error e => rw [hc] at h; exact Except.noConfusion h
                      | ok s3 =>
                        rw [hc, exbind_ok] at h
                        cases h
                        have h2 := next_ok_lt s1 s2 hn2 (by rw [heq2]; rfl)
                        have h3 := expect_close_lt "string" s2 _ hc
                        omega
                  · -- end-element
                    rename_i n2 heq2
                    split at h
                    · cases hn2 : Parser.next s1 with
                      | error e => rw [hn2] at h; exact Except.noConfusion h
                      | ok s2 =>
                        rw [hn2, exbind_ok] at h
                        cases h
                        have h2 := next_ok_lt s1 _ hn2 (by rw [heq2]; rfl)
                        omega
                    · exact Except.noConfusion h
                  · exact Except.noConfusion h
              · rw [if_neg c4] at h
                by_cases c5 : nn.local_name = "base64"
                · rw [if_pos c5] at h
                  cases hn : Parser.next s with
                  | error e => rw [hn] at h; exact Except.noConfusion h
                  | ok s1 =>
                    rw [hn, exbind_ok] at h
                    have h1 := next_ok_lt s s1 hn hnotend
                    split at h
                    · -- characters
                      rename_i data heq2
                      cases hn2 : Parser.next s1 with
                      | error e => rw [hn2] at h; exact Except.noConfusion h
                      | ok s2 =>
                        rw [hn2, exbind_ok] at h
                        cases hc : expect_close "base64" s2 with
                        | error e => rw [hc] at h; exact Except.noConfusion h
                        | ok s3 =>
                          rw [hc, exbind_ok] at h
                          split at h
                          · cases h
                            have h2 := next_ok_lt s1 s2 hn2 (by rw [heq2]; rfl)
                            have h3 := expect_close_lt "base64" s2 _ hc
                            omega
                          · exact Except.noConfusion h
                    · -- end-element
                      rename_i n2 heq2
                      split at h
                      · cases hn2 : Parser.next s1 with
                        | error e => rw [hn2] at h; exact Except.noConfusion h
                        | ok s2 =>
                          rw [hn2, exbind_ok] at h
                          cases h
                          have h2 := next_ok_lt s1 _ hn2 (by rw [heq2]; rfl)
                          omega
                      · exact Except.noConfusion h
                    · exact Except.noConfusion h
                · rw [if_neg c5] at h
                  by_cases c6 : nn.local_name = "i4" ∨ nn.local_name = "int"
                  · rw [if_pos c6] at h
                    exact scalar s _ _ _ v s' hnotend h
                  · rw [if_neg c6] at h
                    by_cases c7 : nn.local_name = "i8"
                    · rw [if_pos c7] at h
                      exact scalar s _ _ _ v s' hnotend h
                    · rw [if_neg c7] at h
                      by_cases c8 : nn.local_name = "boolean"
                      · rw [if_pos c8] at h
                        exact scalar s _ _ _ v s' hnotend h
                      · rw [if_neg c8] at h
                        by_cases c9 : nn.local_name = "double"
                        · rw [if_pos c9] at h
                          exact scalar s _ _ _ v s' hnotend h
                        · rw [if_neg c9] at h
                          by_cases c10 : nn.local_name = "dateTime.iso8601"
                          · rw [if_pos c10] at h
                            exact scalar s _ _ _ v s' hnotend h
                          · rw [if_neg c10] at h
                            exact Except.noConfusion h
      · -- characters
        rename_i data heq
        cases hn : Parser.next s with
        | error e => rw [hn] at h; exact Except.noConfusion h
        | ok s1 =>
          rw [hn, exbind_ok] at h
          cases h
          exact next_ok_lt s _ hn (by rw [heq]; rfl)
      · exact Except.noConfusion h
    · -- parse_struct_body
      intro s members v s' h
      rw [parse_struct_body_succ] at h
      unfold parse_struct_body_step at h
      split at h
      · rename_i s1 heqc
        cases h
        exact expect_close_lt "struct" s _ heqc
      · cases ho1 : expect_open "member" s with
        | error e1 => rw [ho1] at h; exact Except.noConfusion h
        | ok s1 =>
          rw [ho1, exbind_ok] at h
          cases ho2 : expect_open "name" s1 with
          | error e2 => rw [ho2] at h; exact Except.noConfusion h
          | ok s2 =>
            rw [ho2, exbind_ok] at h
            split at h
            · rename_i nm heq2
              cases hn : Parser.next s2 with
              | error e3 => rw [hn] at h; exact Except.noConfusion h
              | ok s3 =>
                rw [hn, exbind_ok] at h
                cases hc2 : expect_close "name" s3 with
                | error e4 => rw [hc2] at h; exact Except.noConfusion h
                | ok s4 =>
                  rw [hc2, exbind_ok] at h
                  cases hv : parse_value n s4 with
                  | error e5 => rw [hv] at h; exact Except.noConfusion h
                  | ok q =>
                    obtain ⟨qv, qs⟩ := q
                    rw [hv, exbind_ok] at h
                    cases hc3 : expect_close "member" qs with
                    | error e6 => rw [hc3] at h; exact Except.noConfusion h
                    | ok s6 =>
                      rw [hc3, exbind_ok] at h
                      have h1 := expect_open_lt "member" s s1 ho1
                      have h2 := expect_open_lt "name" s1 s2 ho2
                      have h3 := next_ok_lt s2 s3 hn (by rw [heq2]; rfl)
                      have h4 := expect_close_lt "name" s3 s4 hc2
                      have h5 := ihv s4 qv qs hv
                      have h6 := expect_close_lt "member" qs s6 hc3
                      have h7 := ihs s6 (binsert nm qv members) v s' h
                      omega
            · exact Except.noConfusion h
    · -- parse_array_body
      intro s acc l s' h
      rw [parse_array_body_succ] at h
      unfold parse_array_body_step at h
      split at h
      · rename_i s1 heqc
        cases h
        exact expect_close_lt "data" s _ heqc
      · cases hv : parse_value n s with
        | error e1 => rw [hv] at h; exact Except.noConfusion h
        | ok q =>
          obtain ⟨qv, qs⟩ := q
          rw [hv, exbind_ok] at h
          have h1 := ihv s qv qs hv
          have h2 := iha qs (acc ++ [qv]) l s' h
          omega


theorem exbind_err {A B : Type} (e : ParseError) (f : A → Except ParseError B) :
    (Except.error e >>= f) = .error e := rfl

theorem isFuelErr_error {A : Type} (e : ParseError) (h : e ≠ .outOfFuel) :
    isFuelErr (.error e : Except ParseError A) = false := by
  cases e with
  | outOfFuel => exact absurd rfl h
  | unexpectedXml a b => rfl
  | invalidValue a b => rfl
  | xmlError m => rfl

theorem nextAux_no_fuel (s : PState) (l : List XmlEvent) (e : ParseError)
    (h : nextAux s l = .error e) : e ≠ .outOfFuel := by
  induction l generalizing s with
  | nil => exact Except.noConfusion h
  | cons ev rest ih =>
    cases ev with
    | startDocument => exact ih _ h
    | processingInstruction => exact ih _ h
    | comment t => exact ih _ h
    | whitespace t => exact ih _ h
    | startElement nn attrs =>
      simp only [nextAux] at h
      by_cases h1 : nn.ns.isSome ∨ nn.pfx.isSome
      · rw [if_pos h1] at h
        cases h
        exact fun hx => ParseError.noConfusion hx
      · rw [if_neg h1] at h
        by_cases h2 : attrs ≠ 0
        · rw [if_pos h2] at h
          cases h
          exact fun hx => ParseError.noConfusion hx
        · rw [if_neg h2] at h
          exact Except.noConfusion h
    | endElement nn =>
      simp only [nextAux] at h
      by_cases h1 : nn.ns.isSome ∨ nn.pfx.isSome
      · rw [if_pos h1] at h
        cases h
        exact fun hx => ParseError.noConfusion hx
      · rw [if_neg h1] at h
        exact Except.noConfusion h
    | characters d => exact Except.noConfusion h
    | cdata d => exact Except.noConfusion h
    | endDocument => exact Except.noConfusion h

theorem next_no_fuel (s : PState) (e : ParseError) (h : Parser.next s = .error e) :
    e ≠ .outOfFuel :=
  nextAux_no_fuel s s.rest e h

theorem expect_open_no_fuel (tag : String) (s : PState) (e : ParseError)
    (h : expect_open tag s = .error e) : e ≠ .outOfFuel := by
  unfold expect_open at h
  split at h
  · split at h
    · exact next_no_fuel s e h
    · cases h; exact fun hx => ParseError.noConfusion hx
  · cases h; exact fun hx => ParseError.noConfusion hx

theorem expect_close_no_fuel (tag : String) (s : PState) (e : ParseError)
    (h : expect_close tag s = .error e) : e ≠ .outOfFuel := by
  unfold expect_close at h
  split at h
  · split at h
    · exact next_no_fuel s e h
    · cases h; exact fun hx => ParseError.noConfusion hx
  · cases h; exact fun hx => ParseError.noConfusion hx

theorem expect_value_no_fuel (ft : String) (p : String → Option Value) (s : PState)
    (e : ParseError) (h : expect_value ft p s = .error e) : e ≠ .outOfFuel := by
  unfold expect_value at h
  split at h
  · split at h
    · rename_i v0 hp
      cases hn : Parser.next s with
      | ok s1 => rw [hn] at h; exact Except.noConfusion h
      | error e1 =>
        rw [hn] at h
        simp only [Except.map] at h
        cases h
        exact next_no_fuel s _ hn
    · cases h; exact fun hx => ParseError.noConfusion hx
  · cases h; exact fun hx => ParseError.noConfusion hx


/-- With fuel exceeding the progress measure, the parser never reports
fuel exhaustion: the Rust recursion terminates on every input. -/
theorem isFuelErr_error_ne {A : Type} (e : ParseError)
    (h : isFuelErr (.error e : Except ParseError A) = false) : e ≠ .outOfFuel := by
  intro he
  subst he
  simp [isFuelErr] at h

theorem parse_sufficient (fuel : Nat) :
    (∀ s, s.meas < fuel → isFuelErr (parse_value fuel s) = false) ∧
    (∀ s, s.meas < fuel → isFuelErr (parse_value_inner fuel s) = false) ∧
    (∀ s members, s.meas < fuel → isFuelErr (parse_struct_body fuel s members) = false) ∧
    (∀ s acc, s.meas + 1 < fuel → isFuelErr (parse_array_body fuel s acc) = false) := by
  induction fuel with
  | zero =>
    refine ⟨?_, ?_, ?_, ?_⟩
    · intro s hm; exact absurd hm (Nat.not_lt_zero _)
    · intro s hm; exact absurd hm (Nat.not_lt_zero _)
    · intro s members hm; exact absurd hm (Nat.not_lt_zero _)
    · intro s acc hm; exact absurd hm (Nat.not_lt_zero _)
  | succ n ih =>
    obtain ⟨ihv, ihi, ihs, iha⟩ := ih
    have scalar : ∀ (s0 : PState) (nmtag ft : String) (p : String → Option Value),
        isFuelErr (Parser.next s0 >>= fun s1 =>
          expect_value ft p s1 >>= fun q =>
            expect_close nmtag q.2 >>= fun s3 =>
              (Except.ok (q.1, s3) : Except ParseError (Value × PState))) = false := by
      intro s0 nmtag ft p
      cases hn : Parser.next s0 with
      | error e =>
        rw [exbind_err]
        exact isFuelErr_error e (next_no_fuel s0 e hn)
      | ok s1 =>
        rw [exbind_ok]
        cases hv : expect_value ft p s1 with
        | error e =>
          rw [exbind_err]
          exact isFuelErr_error e (expect_value_no_fuel ft p s1 e hv)
        | ok q =>
          obtain ⟨qv, qs⟩ := q
          rw [exbind_ok]
          cases hc : expect_close nmtag qs with
          | error e =>
            rw [exbind_err]
            exact isFuelErr_error e (expect_close_no_fuel nmtag qs e hc)
          | ok s3 => rw [exbind_ok]; rfl
    refine ⟨?_, ?_, ?_, ?_⟩
    · -- parse_value
      intro s hm
      rw [parse_value_succ]
      unfold parse_value_step
      cases ho : expect_open "value" s with
      | error e =>
        rw [exbind_err]
        exact isFuelErr_error e (expect_open_no_fuel "value" s e ho)
      | ok s1 =>
        rw [exbind_ok]
        have hlt1 := expect_open_lt "value" s s1 ho
        cases hc : expect_close "value" s1 with
        | ok s2 => rfl
        | error e =>
          show isFuelErr (parse_value_inner n s1 >>= fun p =>
            expect_close "value" p.2 >>= fun s3 => Except.ok (p.1, s3)) = false
          cases hi : parse_value_inner n s1 with
          | error e2 =>
            rw [exbind_err]
            have := ihi s1 (by omega)
            rw [hi] at this
            exact this
          | ok p =>
            obtain ⟨pv, ps⟩ := p
            rw [exbind_ok]
            cases hc2 : expect_close "value" ps with
            | error e3 =>
              rw [exbind_err]
              exact isFuelErr_error e3 (expect_close_no_fuel "value" ps e3 hc2)
            | ok s3 => rw [exbind_ok]; rfl
    · -- parse_value_inner
      intro s hm
      rw [parse_value_inner_succ]
      unfold parse_value_inner_step
      split
      · -- startElement
        rename_i nn attrs heq
        have hnotend : isEndDoc s.cur = false := by rw [heq]; rfl
        by_cases c1 : nn.local_name = "struct"
        · rw [if_pos c1]
          cases hn : Parser.next s with
          | error e =>
            rw [exbind_err]
            exact isFuelErr_error e (next_no_fuel s e hn)
          | ok s1 =>
            rw [exbind_ok]
            have h1 := next_ok_lt s s1 hn hnotend
            exact ihs s1 [] (by omega)
        · rw [if_neg c1]
          by_cases c2 : nn.local_name = "array"
          · rw [if_pos c2]
            cases hn : Parser.next s with
            | error e =>
              rw [exbind_err]
              exact isFuelErr_error e (next_no_fuel s e hn)
            | ok s1 =>
              rw [exbind_ok]
              have h1 := next_ok_lt s s1 hn hnotend
              cases ho : expect_open "data" s1 with
              | error e =>
                rw [exbind_err]
                exact isFuelErr_error e (expect_open_no_fuel "data" s1 e ho)
              | ok s2 =>
                rw [exbind_ok]
                have h2 := expect_open_lt "data" s1 s2 ho
                cases ha : parse_array_body n s2 [] with
                | error e =>
                  rw [exbind_err]
                  have hthis := iha s2 [] (by omega)
                  rw [ha] at hthis
                  exact isFuelErr_error e (isFuelErr_error_ne e hthis)
                | ok q =>
                  obtain ⟨ql, qs⟩ := q
                  rw [exbind_ok]
                  cases hc : expect_close "array" qs with
                  | error e =>
                    rw [exbind_err]
                    exact isFuelErr_error e (expect_close_no_fuel "array" qs e hc)
                  | ok s3 => rw [exbind_ok]; rfl
          · rw [if_neg c2]
            by_cases c3 : nn.local_name = "nil"
            · rw [if_pos c3]
              cases hn : Parser.next s with
              | error e =>
                rw [exbind_err]
                exact isFuelErr_error e (next_no_fuel s e hn)
              | ok s1 =>
                rw [exbind_ok]
                cases hc : expect_close "nil" s1 with
                | error e =>
                  rw [exbind_err]
                  exact isFuelErr_error e (expect_close_no_fuel "nil" s1 e hc)
                | ok s2 => rw [exbind_ok]; rfl
            · rw [if_neg c3]
              by_cases c4 : nn.local_name = "string"
              · rw [if_pos c4]
                cases hn : Parser.next s with
                | error e =>
                  rw [exbind_err]
                  exact isFuelErr_error e (next_no_fuel s e hn)
                | ok s1 =>
                  rw [exbind_ok]
                  split
                  · rename_i data heq2
                    cases hn2 : Parser.next s1 with
                    | error e =>
                      rw [exbind_err]
                      exact isFuelErr_error e (next_no_fuel s1 e hn2)
                    | ok s2 =>
                      rw [exbind_ok]
                      cases hc : expect_close "string" s2 with
                      | error e =>
                        rw [exbind_err]
                        exact isFuelErr_error e (expect_close_no_fuel "string" s2 e hc)
                      | ok s3 => rw [exbind_ok]; rfl
                  · rename_i n2 heq2
                    split
                    · cases hn2 : Parser.next s1 with
                      | error e =>
                        rw [exbind_err]
                        exact isFuelErr_error e (next_no_fuel s1 e hn2)
                      | ok s2 => rw [exbind_ok]; rfl
                    · rfl
                  · rfl
              · rw [if_neg c4]
                by_cases c5 : nn.local_name = "base64"
                · rw [if_pos c5]
                  cases hn : Parser.next s with
                  | error e =>
                    rw [exbind_err]
                    exact isFuelErr_error e (next_no_fuel s e hn)
                  | ok s1 =>
                    rw [exbind_ok]
                    split
                    · rename_i data heq2
                      cases hn2 : Parser.next s1 with
                      | error e =>
                        rw [exbind_err]
                        exact isFuelErr_error e (next_no_fuel s1 e hn2)
                      | ok s2 =>
                        rw [exbind_ok]
                        cases hc : expect_close "base64" s2 with
                        | error e =>
                          rw [exbind_err]
                          exact isFuelErr_error e (expect_close_no_fuel "base64" s2 e hc)
                        | ok s3 =>
                          rw [exbind_ok]
                          split
                          · rfl
                          · rfl
                    · rename_i n2 heq2
                      split
                      · cases hn2 : Parser.next s1 with
                        | error e =>
                          rw [exbind_err]
                          exact isFuelErr_error e (next_no_fuel s1 e hn2)
                        | ok s2 => rw [exbind_ok]; rfl
                      · rfl
                    · rfl
                · rw [if_neg c5]
                  by_cases c6 : nn.local_name = "i4" ∨ nn.local_name = "int"
                  · rw [if_pos c6]; exact scalar s _ _ _
                  · rw [if_neg c6]
                    by_cases c7 : nn.local_name = "i8"
                    · rw [if_pos c7]; exact scalar s _ _ _
                    · rw [if_neg c7]
                      by_cases c8 : nn.local_name = "boolean"
                      · rw [if_pos c8]; exact scalar s _ _ _
                      · rw [if_neg c8]
                        by_cases c9 : nn.local_name = "double"
                        · rw [if_pos c9]; exact scalar s _ _ _
                        · rw [if_neg c9]
                          by_cases c10 : nn.local_name = "dateTime.iso8601"
                          · rw [if_pos c10]; exact scalar s _ _ _
                          · rw [if_neg c10]; rfl
      · -- characters
        rename_i data heq
        cases hn : Parser.next s with
        | error e =>
          rw [exbind_err]
          exact isFuelErr_error e (next_no_fuel s e hn)
        | ok s1 => rw [exbind_ok]; rfl
      · rfl
    · -- parse_struct_body
      intro s members hm
      rw [parse_struct_body_succ]
      unfold parse_struct_body_step
      cases hc : expect_close "struct" s with
      | ok s1 => rfl
      | error e =>
        show isFuelErr (expect_open "member" s >>= fun s1 =>
          expect_open "name" s1 >>= fun s2 =>
            match s2.cur with
            | .characters name =>
              Parser.next s2 >>= fun s3 =>
                expect_close "name" s3 >>= fun s4 =>
                  parse_value n s4 >>= fun q =>
                    expect_close "member" q.2 >>= fun s6 =>
                      parse_struct_body n s6 (binsert name q.1 members)
            | _ => .error (expectedErr s2 "characters")) = false
        cases ho1 : expect_open "member" s with
        | error e1 =>
          rw [exbind_err]
          exact isFuelErr_error e1 (expect_open_no_fuel "member" s e1 ho1)
        | ok s1 =>
          rw [exbind_ok]
          have h1 := expect_open_lt "member" s s1 ho1
          cases ho2 : expect_open "name" s1 with
          | error e2 =>
            rw [exbind_err]
            exact isFuelErr_error e2 (expect_open_no_fuel "name" s1 e2 ho2)
          | ok s2 =>
            rw [exbind_ok]
            have h2 := expect_open_lt "name" s1 s2 ho2
            split
            · rename_i nm heq2
              cases hn : Parser.next s2 with
              | error e3 =>
                rw [exbind_err]
                exact isFuelErr_error e3 (next_no_fuel s2 e3 hn)
              | ok s3 =>
                rw [exbind_ok]
                have h3 := next_ok_lt s2 s3 hn (by rw [heq2]; rfl)
                cases hc2 : expect_close "name" s3 with
                | error e4 =>
                  rw [exbind_err]
                  exact isFuelErr_error e4 (expect_close_no_fuel "name" s3 e4 hc2)
                | ok s4 =>
                  rw [exbind_ok]
                  have h4 := expect_close_lt "name" s3 s4 hc2
                  cases hv : parse_value n s4 with
                  | error e5 =>
                    rw [exbind_err]
                    have := ihv s4 (by omega)
                    rw [hv] at this
                    exact this
                  | ok q =>
                    obtain ⟨qv, qs⟩ := q
                    rw [exbind_ok]
                    have h5 := (parse_decrease n).1 s4 qv qs hv
                    cases hc3 : expect_close "member" qs with
                    | error e6 =>
                      rw [exbind_err]
                      exact isFuelErr_error e6 (expect_close_no_fuel "member" qs e6 hc3)
                    | ok s6 =>
                      rw [exbind_ok]
                      have h6 := expect_close_lt "member" qs s6 hc3
                      exact ihs s6 (binsert nm qv members) (by omega)
            · rfl
    · -- parse_array_body
      intro s acc hm
      rw [parse_array_body_succ]
      unfold parse_array_body_step
      cases hc : expect_close "data" s with
      | ok s1 => rfl
      | error e =>
        show isFuelErr (parse_value n s >>= fun q =>
          parse_array_body n q.2 (acc ++ [q.1])) = false
        cases hv : parse_value n s with
        | error e1 =>
          rw [exbind_err]
          have hthis := ihv s (by omega)
          rw [hv] at hthis
          exact isFuelErr_error e1 (isFuelErr_error_ne e1 hthis)
        | ok q =>
          obtain ⟨qv, qs⟩ := q
          rw [exbind_ok]
          have h1 := (parse_decrease n).1 s qv qs hv
          exact iha qs (acc ++ [qv]) (by omega)


/-- C9: on every event stream — however malformed — the entry points
`parse_response` and `parse_value` (run with the fuel the entry points
supply) terminate with `Ok` or a `ParseError`, never by exhausting the
recursion fuel: the embedding's `outOfFuel` artifact is unreachable, so
the Rust recursion is total and no input can drive the parser into a
panic path (the source has none: every failure is returned as an error
value). -/
theorem parse_entry_points_never_exhaust_fuel (ts : List XmlEvent) :
    isFuelErr (parse_response_events ts) = false ∧
    isFuelErr (parse_value_events ts) = false := by
  constructor
  · unfold parse_response_events parser_new
    cases hn : Parser.next ⟨.endDocument, ts⟩ with
    | error e =>
      rw [exbind_err]
      exact isFuelErr_error e (next_no_fuel _ e hn)
    | ok s0 =>
      rw [exbind_ok]
      have hm0 : s0.meas ≤ ts.length := nextAux_ok_le ⟨.endDocument, ts⟩ ts s0 hn
      unfold parse_response
      cases ho : expect_open "methodResponse" s0 with
      | error e =>
        rw [exbind_err]
        exact isFuelErr_error e (expect_open_no_fuel "methodResponse" s0 e ho)
      | ok s1 =>
        rw [exbind_ok]
        have h1 := expect_open_lt "methodResponse" s0 s1 ho
        split
        · rename_i nn attrs heq
          by_cases c1 : nn.local_name = "fault"
          · rw [if_pos c1]
            cases hn2 : Parser.next s1 with
            | error e =>
              rw [exbind_err]
              exact isFuelErr_error e (next_no_fuel s1 e hn2)
            | ok s2 =>
              rw [exbind_ok]
              have h2 := next_ok_lt s1 s2 hn2 (by rw [heq]; rfl)
              cases hv : parse_value (ts.length + 1) s2 with
              | error e =>
                rw [exbind_err]
                have hthis := (parse_sufficient (ts.length + 1)).1 s2 (by omega)
                rw [hv] at hthis
                exact isFuelErr_error e (isFuelErr_error_ne e hthis)
              | ok q =>
                obtain ⟨qv, qs⟩ := q
                rw [exbind_ok]
                show isFuelErr (match Fault.from_value qv with
                  | some fault => (Except.ok (Except.error fault) : Except ParseError Response)
                  | none => Except.error (ParseError.xmlError "malformed <fault>")) = false
                cases hf : Fault.from_value qv with
                | some fault => rfl
                | none => rfl
          · rw [if_neg c1]
            by_cases c2 : nn.local_name = "params"
            · rw [if_pos c2]
              cases hn2 : Parser.next s1 with
              | error e =>
                rw [exbind_err]
                exact isFuelErr_error e (next_no_fuel s1 e hn2)
              | ok s2 =>
                rw [exbind_ok]
                have h2 := next_ok_lt s1 s2 hn2 (by rw [heq]; rfl)
                cases ho2 : expect_open "param" s2 with
                | error e =>
                  rw [exbind_err]
                  exact isFuelErr_error e (expect_open_no_fuel "param" s2 e ho2)
                | ok s3 =>
                  rw [exbind_ok]
                  have h3 := expect_open_lt "param" s2 s3 ho2
                  cases hv : parse_value (ts.length + 1) s3 with
                  | error e =>
                    rw [exbind_err]
                    have hthis := (parse_sufficient (ts.length + 1)).1 s3 (by omega)
                    rw [hv] at hthis
                    exact isFuelErr_error e (isFuelErr_error_ne e hthis)
                  | ok q =>
                    obtain ⟨qv, qs⟩ := q
                    rw [exbind_ok]
                    show isFuelErr (expect_close "param" qs >>= fun x =>
                      (Except.ok (Except.ok qv) : Except ParseError Response)) = false
                    cases hc : expect_close "param" qs with
                    | error e =>
                      rw [exbind_err]
                      exact isFuelErr_error e (expect_close_no_fuel "param" qs e hc)
                    | ok s4 => rw [exbind_ok]; rfl
            · rw [if_neg c2]; rfl
        · rfl
  · unfold parse_value_events parser_new
    cases hn : Parser.next ⟨.endDocument, ts⟩ with
    | error e =>
      rw [exbind_err]
      exact isFuelErr_error e (next_no_fuel _ e hn)
    | ok s0 =>
      rw [exbind_ok]
      have hm0 : s0.meas ≤ ts.length := nextAux_ok_le ⟨.endDocument, ts⟩ ts s0 hn
      cases hv : parse_value (ts.length + 1) s0 with
      | error e =>
        rw [exbind_err]
        have hthis := (parse_sufficient (ts.length + 1)).1 s0 (by omega)
        rw [hv] at hthis
        exact isFuelErr_error e (isFuelErr_error_ne e hthis)
      | ok q =>
        obtain ⟨qv, qs⟩ := q
        rw [exbind_ok]
        rfl


end XmlRpc
